import Mathlib

/-!
Shallow embedding of the API Token Access Control Core of the KeyOrbit-Server
repository (Flask + MongoDB + bcrypt).  The embedding follows the Python source:

* `src/app/models.py`              (class ApiToken, class Session)
* `src/app/services/token_service.py`   (class TokenService)
* `src/app/services/token_cleanup_service.py` (TokenCleanupService)
* `src/app/utils/security.py`      (bcrypt wrappers, verify_jwt, is_token_expired)
* `src/app/routes/tokens.py`       (write-time input validation)
* `src/app/middlewares/api_auth_middleware.py` (hybrid_auth)

Modelling conventions:
* Timestamps are UTC instants as `Int`.  The source stores datetimes in IST and
  normalises both sides to UTC before every comparison (`is_token_expired`),
  so a single timeline faithfully captures the comparisons.
* bcrypt is modelled functionally: `hash_password` pairs the password with its
  salt, and `verify_password` re-derives and compares digests, so
  `verify_password v (hash_password s p) = (v == p)` — exactly bcrypt's
  contract (`checkpw`), ignoring hash collisions.
* The MongoDB collection is a `List TokenRec` in natural order; `update_one`
  with an `_id` filter is `updateById`, which rewrites the first record whose
  `id` matches.  `$inc`/`$set` of one `update_one` call is one `updateById`.
* Randomness (fresh secrets, salts, generated `_id`s) is passed in as
  parameters.
-/

namespace KeyOrbit

/-- Token status; the source uses the strings "active", "expired", "revoked". -/
inductive Status where
  | active
  | expired
  | revoked
deriving DecidableEq, Repr

/-- String rendering of a status, as interpolated into the source's messages. -/
def Status.str : Status → String
  | .active => "active"
  | .expired => "expired"
  | .revoked => "revoked"

/-- Functional model of a bcrypt hash: the salt together with the data the
digest was computed from.  The raw secret is recoverable here only because the
model identifies a digest with its preimage; verification semantics
(`bcrypt.checkpw`) is what matters for the claims. -/
structure BcryptHash where
  salt : Nat
  digest : String
deriving DecidableEq, Repr

/-- security.py `hash_password`: salted slow hash of the password. -/
def hash_password (salt : Nat) (password : String) : BcryptHash :=
  ⟨salt, password⟩

/-- security.py `verify_password`: `bcrypt.checkpw(password, hashed)`. -/
def verify_password (password : String) (h : BcryptHash) : Bool :=
  password == h.digest

/-- Character-list take, modelling Python slicing `s[:n]`. -/
def strTake (s : String) (n : Nat) : String :=
  String.mk (s.data.take n)

/-- security.py `generate_token_preview`: first 8 characters of the token. -/
def generate_token_preview (token : String) : String :=
  strTake token 8

/-- security.py `is_token_expired`: both sides converted to UTC, then
`current_utc > expires_utc`; a missing expiry is never expired. -/
def is_token_expired (now : Int) (expires_at : Option Int) : Bool :=
  match expires_at with
  | none => false
  | some e => now > e

/-- A document of the `api_tokens` collection (models.py `ApiToken`). -/
structure TokenRec where
  id : Nat
  userId : Nat
  name : String
  description : String
  tokenHash : BcryptHash
  tokenPreview : String
  permissions : List String
  scopes : List String
  status : Status
  rateLimit : Int
  ipRestrictions : List String
  expiresAt : Option Int
  lastUsed : Option Int
  lastUsedIp : Option String
  apiCalls : Nat
  createdAt : Int
  updatedAt : Int
deriving DecidableEq, Repr

/-- `collection.update_one({"_id": i}, ...)`: rewrite the first record whose
id matches (Mongo `_id` values are unique, so at most one document matches). -/
def updateById (store : List TokenRec) (i : Nat) (f : TokenRec → TokenRec) : List TokenRec :=
  match store with
  | [] => []
  | r :: rs => if r.id == i then f r :: rs else r :: updateById rs i f

/-- `collection.find_one({"_id": i})`: first record whose id matches. -/
def firstById (store : List TokenRec) (i : Nat) : Option TokenRec :=
  store.find? (fun r => r.id == i)

/-- models.py `ApiToken.find_by_user_and_id`. -/
def find_by_user_and_id (store : List TokenRec) (user_id token_id : Nat) : Option TokenRec :=
  store.find? (fun r => r.id == token_id && r.userId == user_id)

/-- models.py `ApiToken.find_by_user` (without `include_revoked`): all of the
user's records whose status is not "revoked".  The source additionally sorts by
`createdAt` descending; the order is irrelevant to every claim, so the natural
store order is kept. -/
def find_by_user (store : List TokenRec) (user_id : Nat) : List TokenRec :=
  store.filter (fun r => r.userId == user_id && r.status != Status.revoked)

/-- The scan set of models.py `ApiToken.find_by_token_value`:
`find({"status": {"$in": ["active", "expired"]}})`. -/
def candidateTokens (store : List TokenRec) : List TokenRec :=
  store.filter (fun r => r.status == Status.active || r.status == Status.expired)

/-- models.py `ApiToken.find_by_token_value`: iterate the active/expired
candidates and return the first whose stored hash verifies the presented
value. -/
def find_by_token_value (store : List TokenRec) (token_value : String) : Option TokenRec :=
  (candidateTokens store).find? (fun r => verify_password token_value r.tokenHash)

/-- Python truthiness of the optional `client_ip` string (None and "" are
falsy). -/
def truthyStr (s : Option String) : Bool :=
  match s with
  | none => false
  | some v => v != ""

/-- The `$set`/`$inc` payload of models.py `ApiToken.increment_api_calls`:
bump `apiCalls`, stamp `lastUsed`/`updatedAt`, and set `lastUsedIp` only when
an `ip_address` was passed (Python: `if ip_address:`). -/
def incrementF (now : Int) (ip : Option String) (r : TokenRec) : TokenRec :=
  { r with apiCalls := r.apiCalls + 1, lastUsed := some now, updatedAt := now,
           lastUsedIp := if truthyStr ip then ip else r.lastUsedIp }

/-- models.py `ApiToken.increment_api_calls`. -/
def increment_api_calls (store : List TokenRec) (now : Int) (i : Nat) (ip : Option String) :
    List TokenRec :=
  updateById store i (incrementF now ip)

/-- The inline expiry write of `validate_token_access` (token_service.py
lines 479-482): sets only the status field. -/
def expireOnlyF (r : TokenRec) : TokenRec :=
  { r with status := Status.expired }

/-- Mark one record expired, the lazy transition on the validation path. -/
def markExpired (store : List TokenRec) (i : Nat) : List TokenRec :=
  updateById store i expireOnlyF

/-- The usage bookkeeping fields of a record: apiCalls (usageCount),
lastUsed (lastUsedAt), lastUsedIp. -/
def usageFields (r : TokenRec) : Nat × Option Int × Option String :=
  (r.apiCalls, r.lastUsed, r.lastUsedIp)

/-! IP allow-list machinery.

Two distinct grammars appear in the source:
* write time (routes/tokens.py `create_api_token` and token_service.py
  `update_token`): the regex
  `^(\d{1,3})\.(\d{1,3})\.(\d{1,3})\.(\d{1,3})(\/(\d{1,2}))?$`
  plus the range checks octet <= 255 and 0 <= cidr <= 32;
* check time (token_service.py `_check_ip_restriction`): exact string
  membership, then for entries containing a slash the stdlib
  `ipaddress.ip_network(entry, strict=False)` / `ipaddress.ip_address`, with
  `ValueError` caught and the entry skipped.  The stdlib parser (Python
  3.9.5 and later, after the CVE-2021-29921 fix) rejects dotted-quad octets
  with leading zeros, which the write-time regex accepts. -/

/-- Split a character list at every occurrence of `c` (semantics of Python
`str.split` with a one-character separator). -/
def splitCharList (c : Char) : List Char → List (List Char)
  | [] => [[]]
  | x :: xs =>
    let rest := splitCharList c xs
    if x == c then [] :: rest
    else
      match rest with
      | [] => [[x]]
      | g :: gs => (x :: g) :: gs

/-- Split a string at every occurrence of `c`. -/
def splitStr (s : String) (c : Char) : List String :=
  (splitCharList c s.data).map String.mk

/-- Decimal value of a digit string (Python `int`). -/
def digitsVal (s : String) : Nat :=
  s.data.foldl (fun a c => a * 10 + (c.toNat - 48)) 0

/-- Entirely made of ASCII digits and nonempty. -/
def strDigits (s : String) : Bool :=
  !s.data.isEmpty && s.data.all Char.isDigit

/-- Shape of one octet group of the write-time regex: `\d{1,3}`. -/
def writeOctetShape (s : String) : Bool :=
  decide (1 ≤ s.data.length) && decide (s.data.length ≤ 3) && s.data.all Char.isDigit

/-- Shape of the optional CIDR group of the write-time regex: `\d{1,2}`. -/
def writeCidrShape (s : String) : Bool :=
  decide (1 ≤ s.data.length) && decide (s.data.length ≤ 2) && s.data.all Char.isDigit

/-- The address/CIDR parts of an allow-list entry: at most one slash, address
split at the dots. -/
def ipGrammarParts (ip : String) : Option (List String × Option String) :=
  match splitStr ip '/' with
  | [addr] => some (splitStr addr '.', none)
  | [addr, cidr] => some (splitStr addr '.', some cidr)
  | _ => none

/-- Whether the write-time regex matches the entry (shape only; range checks
come after, as in the source). -/
def matchesIpGrammar (ip : String) : Bool :=
  match ipGrammarParts ip with
  | some (octs, cidr?) =>
    octs.length == 4 && octs.all writeOctetShape &&
      (match cidr? with
       | none => true
       | some c => writeCidrShape c)
  | none => false

/-- Write-time validation of one allow-list entry (routes/tokens.py lines
78-95 and the identical block of token_service.py `update_token`): regex
match, then octet range, then CIDR range; `none` means the entry is accepted,
`some msg` is the 400-error message. -/
def check_ip_entry (ip : String) : Option String :=
  if !matchesIpGrammar ip then
    some ("Invalid IP address format: " ++ ip ++ ". Use format: 192.168.1.1 or 192.168.1.0/24")
  else if !(match ipGrammarParts ip with
            | some (octs, _) => octs.all (fun o => decide (digitsVal o ≤ 255))
            | none => false) then
    some ("Invalid IP address: " ++ ip ++ ". Octet must be between 0-255")
  else if !(match ipGrammarParts ip with
            | some (_, some c) => decide (digitsVal c ≤ 32)
            | some (_, none) => true
            | none => false) then
    some ("Invalid CIDR: " ++ ip ++ ". CIDR must be between 0-32")
  else none

/-- An entry passes write-time validation. -/
def write_ip_entry_ok (ip : String) : Bool :=
  (check_ip_entry ip).isNone

/-- First write-time error over a submitted allow list (the source returns on
the first offending entry). -/
def ip_restrictions_error (ips : List String) : Option String :=
  ips.findSome? check_ip_entry

/-- stdlib `ipaddress` octet parser: 1-3 ASCII digits, no leading zeros
(Python >= 3.9.5), value at most 255. -/
def parse_octet (s : String) : Option Nat :=
  if s.data.isEmpty || decide (3 < s.data.length) then none
  else if !s.data.all Char.isDigit then none
  else if decide (1 < s.data.length) && s.data.head? == some '0' then none
  else if digitsVal s ≤ 255 then some (digitsVal s) else none

/-- stdlib `ipaddress.ip_address` on a dotted quad, as a 32-bit value. -/
def ip_address_parse (s : String) : Option Nat :=
  match (splitStr s '.').mapM parse_octet with
  | some [a, b, c, d] => some (((a * 256 + b) * 256 + c) * 256 + d)
  | _ => none

/-- Zero the host bits of `a` below prefix length `p`. -/
def maskValue (a p : Nat) : Nat :=
  a / 2 ^ (32 - p) * 2 ^ (32 - p)

/-- stdlib `ipaddress.ip_network(s, strict=False)`: parse the base address and
prefix length (0-32) and mask the host bits away; `none` models `ValueError`. -/
def ip_network_parse (s : String) : Option (Nat × Nat) :=
  match splitStr s '/' with
  | [addr] => (ip_address_parse addr).map (fun a => (a, 32))
  | [addr, p] =>
    match ip_address_parse addr with
    | none => none
    | some a =>
      if strDigits p && decide (digitsVal p ≤ 32) then
        some (maskValue a (digitsVal p), digitsVal p)
      else none
  | _ => none

/-- Membership of an address in a parsed network. -/
def inNetwork (a : Nat) (net : Nat × Nat) : Bool :=
  maskValue a net.2 == net.1

/-- token_service.py `TokenService._check_ip_restriction` (the stdlib
`ipaddress` path; the `ImportError` fallback is dead in any environment with
the standard library).  Empty restriction list allows every client; otherwise
a client IP is required (Python truthiness), is first compared literally
against the entries, and then each entry containing a slash is parsed as a
CIDR network, a `ValueError` skipping that entry. -/
def check_ip_restriction (client_ip : Option String) (ip_restrictions : List String) : Bool :=
  if ip_restrictions.isEmpty then true
  else if !truthyStr client_ip then false
  else
    let ip := client_ip.getD ""
    if ip_restrictions.contains ip then true
    else
      ip_restrictions.any (fun r =>
        if r.data.contains '/' then
          match ip_network_parse r, ip_address_parse ip with
          | some net, some a => inNetwork a net
          | _, _ => false
        else false)

/-- The principal context returned by a successful validation
(token_service.py lines 513-521). -/
structure TokenInfo where
  userId : Nat
  tokenId : Nat
  permissions : List String
  scopes : List String
  rateLimit : Int
  ipRestrictions : List String
  tokenName : String
deriving DecidableEq, Repr

/-- Principal context built from a matched record. -/
def TokenRec.toInfo (t : TokenRec) : TokenInfo :=
  ⟨t.userId, t.id, t.permissions, t.scopes, t.rateLimit, t.ipRestrictions, t.name⟩

/-- The `(is_valid, message, token_info)` triple returned by
`validate_token_access`. -/
structure ValidateResult where
  ok : Bool
  message : String
  info : Option TokenInfo
deriving DecidableEq, Repr

/-- First required item missing from the held set (`for required_perm in
required_permissions: if required_perm not in token_permissions`); an empty
requirement list is falsy in Python and checks nothing, which coincides with
`find?` on the empty list. -/
def firstMissing (required held : List String) : Option String :=
  required.find? (fun p => !held.contains p)

/-- token_service.py `TokenService.validate_token_access`, paired with the
store it leaves behind.  Order of checks as in the source: hash scan, status,
expiry (with the inline status write), IP allow-list, permissions, scopes,
then the usage update. -/
def validate_token_access (store : List TokenRec) (now : Int) (token_value : String)
    (required_permissions required_scopes : List String) (client_ip : Option String) :
    ValidateResult × List TokenRec :=
  match find_by_token_value store token_value with
  | none => (⟨false, "Invalid token", none⟩, store)
  | some token =>
    if token.status != Status.active then
      (⟨false, "Token is " ++ token.status.str, none⟩, store)
    else if is_token_expired now token.expiresAt then
      (⟨false, "Token has expired", none⟩, markExpired store token.id)
    else if !token.ipRestrictions.isEmpty && !truthyStr client_ip then
      (⟨false, "IP address required for this token", none⟩, store)
    else if !token.ipRestrictions.isEmpty &&
        !check_ip_restriction client_ip token.ipRestrictions then
      (⟨false, "IP address " ++ client_ip.getD "" ++ " not allowed for this token", none⟩, store)
    else
      match firstMissing required_permissions token.permissions with
      | some p => (⟨false, "Insufficient permissions: " ++ p, none⟩, store)
      | none =>
        match firstMissing required_scopes token.scopes with
        | some sc => (⟨false, "Insufficient scopes: " ++ sc, none⟩, store)
        | none =>
          (⟨true, "Access granted", some token.toInfo⟩,
            increment_api_calls store now token.id client_ip)

/-- token_service.py `TokenService.revoke_api_token`: ownership lookup, early
return when already revoked, otherwise models.py `ApiToken.revoke_token`
unconditionally sets status "revoked". -/
def revoke_api_token (store : List TokenRec) (now : Int) (user_id token_id : Nat) :
    (Bool × Option String) × List TokenRec :=
  match find_by_user_and_id store user_id token_id with
  | none => ((false, some "Token not found"), store)
  | some token =>
    if token.status == Status.revoked then
      ((true, some "Token already revoked"), store)
    else
      ((true, none),
        updateById store token_id (fun r => { r with status := Status.revoked, updatedAt := now }))

/-- The `$set` payload of models.py `ApiToken.regenerate_token`. -/
def regenF (salt : Nat) (fresh : String) (now : Int) (r : TokenRec) : TokenRec :=
  { r with tokenHash := hash_password salt fresh,
           tokenPreview := generate_token_preview fresh,
           lastUsed := none, lastUsedIp := none, apiCalls := 0, updatedAt := now }

/-- token_service.py `TokenService.regenerate_api_token`: only an active token
owned by the caller is rotated; the fresh secret and salt are passed in for
the randomness.  Returns (new raw token, error message) with the store. -/
def regenerate_api_token (store : List TokenRec) (now : Int) (salt : Nat) (fresh : String)
    (user_id token_id : Nat) : (Option String × Option String) × List TokenRec :=
  match find_by_user_and_id store user_id token_id with
  | none => ((none, some "Token not found"), store)
  | some token =>
    if token.status != Status.active then
      ((none, some ("Cannot regenerate " ++ token.status.str ++ " token")), store)
    else
      ((some fresh, none), updateById store token_id (regenF salt fresh now))

/-- token_service.py `TokenService.update_token_permissions`: only while
active; scopes only when supplied (Python `if scopes is not None`). -/
def update_token_permissions (store : List TokenRec) (now : Int) (user_id token_id : Nat)
    (permissions : List String) (scopes : Option (List String)) :
    (Bool × Option String) × List TokenRec :=
  match find_by_user_and_id store user_id token_id with
  | none => ((false, some "Token not found"), store)
  | some token =>
    if token.status != Status.active then
      ((false, some ("Cannot update " ++ token.status.str ++ " token")), store)
    else
      ((true, none),
        updateById store token_id (fun r =>
          { r with permissions := permissions, scopes := scopes.getD r.scopes,
                   updatedAt := now }))

/-- The metadata fields `TokenService.update_token` validates and applies
(the `updates` dict of the source, restricted to its documented fields; a
`none` field is absent from the dict). -/
structure TokenUpdates where
  name : Option String
  description : Option String
  expiresAt : Option Int
  rateLimit : Option Int
  ipRestrictions : Option (List String)
deriving DecidableEq, Repr

/-- Apply a validated update dict to a record, stamping `updatedAt`. -/
def applyUpdates (u : TokenUpdates) (now : Int) (r : TokenRec) : TokenRec :=
  { r with
    name := u.name.getD r.name,
    description := u.description.getD r.description,
    expiresAt := match u.expiresAt with
                 | some e => some e
                 | none => r.expiresAt,
    rateLimit := u.rateLimit.getD r.rateLimit,
    ipRestrictions := u.ipRestrictions.getD r.ipRestrictions,
    updatedAt := now }

/-- token_service.py `TokenService.update_token`: only while active; a
supplied expiry must be strictly future, a supplied rate limit in [1, 10000],
and every supplied allow-list entry must pass the write-time grammar; any
failure returns before the store write. -/
def update_token (store : List TokenRec) (now : Int) (user_id token_id : Nat) (u : TokenUpdates) :
    (Bool × String) × List TokenRec :=
  match find_by_user_and_id store user_id token_id with
  | none => ((false, "Token not found"), store)
  | some token =>
    if token.status != Status.active then
      ((false, "Cannot update " ++ token.status.str ++ " token"), store)
    else if (match u.expiresAt with
             | some e => decide (e ≤ now)
             | none => false) then
      ((false, "Expiration date must be in the future"), store)
    else if (match u.rateLimit with
             | some v => decide (v < 1) || decide (10000 < v)
             | none => false) then
      ((false, "Rate limit must be between 1 and 10000"), store)
    else
      match u.ipRestrictions.bind ip_restrictions_error with
      | some err => ((false, err), store)
      | none =>
        ((true, "Token updated successfully"), updateById store token_id (applyUpdates u now))

/-- The closed permission vocabulary of routes/tokens.py. -/
def valid_permissions : List String :=
  ["key:read", "key:write", "key:delete", "key:rotate",
   "audit:read", "admin:all", "user:read", "user:write",
   "policy:read", "policy:write", "token:read", "token:write"]

/-- The request body of routes/tokens.py `create_api_token`; `expiresAt`
already parsed to an instant (`parse_expiration_date` is representational). -/
structure CreateData where
  name : String
  description : String
  permissions : List String
  scopes : List String
  rateLimit : Option Int
  ipRestrictions : List String
  expiresAt : Option Int
deriving DecidableEq, Repr

/-- Default expiry horizon: 90 days, in seconds. -/
def days90 : Int := 90 * 86400

/-- routes/tokens.py `create_api_token` composed with
`TokenService.create_api_token`: request validation (name, permission
vocabulary, rate-limit range, future expiry, allow-list grammar) in source
order, then the insert.  `new_id`, `salt` and `fresh` stand for the generated
`_id`, bcrypt salt and raw secret.  On success the raw secret is returned. -/
def create_api_token_route (store : List TokenRec) (now : Int) (new_id salt : Nat)
    (fresh : String) (user_id : Nat) (d : CreateData) :
    Except String String × List TokenRec :=
  if d.name == "" then (.error "Token name is required", store)
  else if d.permissions.isEmpty then (.error "At least one permission is required", store)
  else
    match d.permissions.find? (fun p => !valid_permissions.contains p) with
    | some p => (.error ("Invalid permission: " ++ p), store)
    | none =>
      if (match d.rateLimit with
          | some v => decide (v < 1) || decide (10000 < v)
          | none => false) then
        (.error "Rate limit must be between 1 and 10000", store)
      else if (match d.expiresAt with
               | some e => decide (e ≤ now)
               | none => false) then
        (.error "Expiration date must be in the future", store)
      else
        match ip_restrictions_error d.ipRestrictions with
        | some err => (.error err, store)
        | none =>
          let newRec : TokenRec :=
            { id := new_id, userId := user_id, name := d.name, description := d.description,
              tokenHash := hash_password salt fresh,
              tokenPreview := generate_token_preview fresh,
              permissions := d.permissions, scopes := d.scopes, status := Status.active,
              rateLimit := d.rateLimit.getD 1000, ipRestrictions := d.ipRestrictions,
              expiresAt := some (d.expiresAt.getD (now + days90)),
              lastUsed := none, lastUsedIp := none, apiCalls := 0,
              createdAt := now, updatedAt := now }
          (.ok fresh, store ++ [newRec])

/-- The projection of one formatted entry of `get_user_tokens` /
`get_token_details` relevant to the claims (the derived presentation metrics
of the source involve `random` and are display-only). -/
structure TokenView where
  id : Nat
  name : String
  status : Status
  expiresAt : Option Int
  apiCalls : Nat
deriving DecidableEq, Repr

/-- View of a record under a (possibly overridden) display status. -/
def TokenRec.toView (t : TokenRec) (st : Status) : TokenView :=
  ⟨t.id, t.name, st, t.expiresAt, t.apiCalls⟩

/-- The lazy-expiry condition of the read paths: `status == "active" and
expires_at and is_token_expired(expires_at)`. -/
def lazyExpireCond (now : Int) (t : TokenRec) : Bool :=
  t.status == Status.active && t.expiresAt.isSome && is_token_expired now t.expiresAt

/-- The `$set` applied by the read paths through `ApiToken.update_token`
(which always also stamps `updatedAt`). -/
def expireUpdF (now : Int) (r : TokenRec) : TokenRec :=
  { r with status := Status.expired, updatedAt := now }

/-- The per-token loop body of `TokenService.get_user_tokens`: iterate the
snapshot, write the expiry transition back for stale active tokens, and
report the corrected status. -/
def processUserTokens (now : Int) : List TokenRec → List TokenRec → List TokenView × List TokenRec
  | [], st => ([], st)
  | t :: ts, st =>
    let isExp := lazyExpireCond now t
    let st1 := if isExp then updateById st t.id (expireUpdF now) else st
    let rest := processUserTokens now ts st1
    (t.toView (if isExp then Status.expired else t.status) :: rest.1, rest.2)

/-- token_service.py `TokenService.get_user_tokens`. -/
def get_user_tokens (store : List TokenRec) (now : Int) (user_id : Nat) :
    List TokenView × List TokenRec :=
  processUserTokens now (find_by_user store user_id) store

/-- token_service.py `TokenService.get_token_details`. -/
def get_token_details (store : List TokenRec) (now : Int) (user_id token_id : Nat) :
    Option TokenView × List TokenRec :=
  match find_by_user_and_id store user_id token_id with
  | none => (none, store)
  | some t =>
    if lazyExpireCond now t then
      (some (t.toView Status.expired), updateById store t.id (expireUpdF now))
    else
      (some (t.toView t.status), store)

/-- token_cleanup_service.py `TokenCleanupService.cleanup_expired_tokens`
(the ExpirySweeper): every record matching
`{"status": "active", "expiresAt": {"$lt": now}}` is set to "expired"
(a `$lt` comparison never matches a missing/None expiry). -/
def cleanup_expired_tokens (store : List TokenRec) (now : Int) : List TokenRec :=
  store.map (fun r =>
    if r.status == Status.active &&
        (match r.expiresAt with
         | some e => decide (e < now)
         | none => false) then
      expireUpdF now r
    else r)

/-- Decoded JWT claims (the payload fields the middleware consumes). -/
structure JwtClaims where
  userId : Nat
  exp : Int
deriving DecidableEq, Repr

/-- Environment of security.py `verify_jwt`: the server-side signing secret
and the decoding of bearer strings into (claims, key-the-string-was-signed
-with); `none` models a string that is not a structurally valid JWT. -/
structure JwtEnv where
  secret : String
  decode : String → Option (JwtClaims × String)

/-- security.py `verify_jwt` via `jwt.decode`: signature must have been made
with the server secret and the exp claim must not be in the past
(`ExpiredSignatureError` and `InvalidTokenError` both yield None). -/
def verify_jwt (env : JwtEnv) (now : Int) (tok : String) : Option JwtClaims :=
  match env.decode tok with
  | none => none
  | some (claims, key) =>
    if key != env.secret then none
    else if claims.exp < now then none
    else some claims

/-- A document of the `sessions` collection (models.py `Session`). -/
structure SessionRec where
  userId : Nat
  token : String
  expires : Int
deriving DecidableEq, Repr

/-- models.py `Session.delete_session` (`delete_one`: first match). -/
def delete_session (sessions : List SessionRec) (tok : String) : List SessionRec :=
  match sessions with
  | [] => []
  | s :: rest => if s.token == tok then rest else s :: delete_session rest tok

/-- Outcome of the hybrid gate: the request context it installs. -/
inductive AuthOutcome where
  | apiToken (info : Option TokenInfo)
  | jwtSession (claims : JwtClaims)
  | unauthorized (msg : String)
deriving DecidableEq, Repr

/-- api_auth_middleware.py `hybrid_auth`: API-token validation first; on any
failure, JWT verification; one generic error when both fail.  The source
never reads the `sessions` collection on this path — the parameter is
carried only so that the claims about session records can be stated. -/
def hybrid_auth (store : List TokenRec) (_sessions : List SessionRec) (env : JwtEnv) (now : Int)
    (tok : String) (client_ip : Option String) : AuthOutcome × List TokenRec :=
  let res := validate_token_access store now tok [] [] client_ip
  if res.1.ok then (AuthOutcome.apiToken res.1.info, res.2)
  else
    match verify_jwt env now tok with
    | some claims => (AuthOutcome.jwtSession claims, res.2)
    | none => (AuthOutcome.unauthorized "Invalid token", res.2)

/-! Concrete sample data used by the witnesses and counterexamples. -/

/-- An active sample token with no IP restriction. -/
def tokActive : TokenRec :=
  { id := 10, userId := 1, name := "alpha", description := "",
    tokenHash := hash_password 3 "secretA", tokenPreview := "secretA",
    permissions := ["key:read"], scopes := [], status := Status.active,
    rateLimit := 1000, ipRestrictions := [], expiresAt := some 500,
    lastUsed := none, lastUsedIp := some "9.9.9.9", apiCalls := 4,
    createdAt := 0, updatedAt := 0 }

/-- An expired sample token. -/
def tokExpired : TokenRec :=
  { id := 11, userId := 1, name := "beta", description := "",
    tokenHash := hash_password 5 "secretB", tokenPreview := "secretB",
    permissions := ["key:read"], scopes := [], status := Status.expired,
    rateLimit := 2000, ipRestrictions := [], expiresAt := some 50,
    lastUsed := none, lastUsedIp := none, apiCalls := 0,
    createdAt := 0, updatedAt := 0 }

/-- A sample two-token store. -/
def sampleStore : List TokenRec := [tokActive, tokExpired]

/-- A sample JWT environment: one decodable bearer string, signed with the
server secret, expiring at time 1000. -/
def sampleJwtEnv : JwtEnv :=
  { secret := "server-secret",
    decode := fun s =>
      if s == "jwt-bearer" then some (⟨7, 1000⟩, "server-secret") else none }

/-- The session backing the sample JWT, before logout. -/
def sampleSession : SessionRec := ⟨7, "jwt-bearer", 1000⟩

/-! Status state machine and rate-limit scrubbing relations. -/

/-- One record's status either stays put or makes the expiry transition from
active to expired (the only transition validate's lazy check, the read paths
and the sweeper can make). -/
def ExpireStep (a b : Status) : Prop :=
  a = b ∨ (a = Status.active ∧ b = Status.expired)

/-- One record's status either stays put or is set to revoked from active or
from expired (the revoke endpoint refuses only already-revoked records, so
both sources occur). -/
def RevokeStep (a b : Status) : Prop :=
  a = b ∨ ((a = Status.active ∨ a = Status.expired) ∧ b = Status.revoked)

/-- Pointwise evolution of a store along a per-record status relation: same
records in the same positions, ids unchanged, each status moving along R. -/
def StepEvolves (R : Status → Status → Prop) (s s' : List TokenRec) : Prop :=
  List.Forall₂ (fun r r' => r.id = r'.id ∧ R r.status r'.status) s s'

/-- Erase the rateLimit field of a record. -/
def scrubRate (r : TokenRec) : TokenRec := { r with rateLimit := 0 }

/-- Two records that agree on every field except possibly rateLimit. -/
def SameButRate (t u : TokenRec) : Prop := scrubRate t = scrubRate u

/-- Erase the rateLimit field of a principal context. -/
def scrubInfo (i : TokenInfo) : TokenInfo := { i with rateLimit := 0 }

instance (t u : TokenRec) : Decidable (SameButRate t u) := by
  unfold SameButRate
  infer_instance

/-! Helper lemmas about the store primitives. -/

theorem find?_cons_eq {α : Type} (p : α → Bool) (a : α) (l : List α) :
    (a :: l).find? p = if p a then some a else l.find? p := by
  by_cases h : p a
  · rw [if_pos h]
    exact List.find?_cons_of_pos _ h
  · rw [if_neg h]
    exact List.find?_cons_of_neg _ h

theorem filter_cons_eq {α : Type} (p : α → Bool) (a : α) (l : List α) :
    (a :: l).filter p = if p a then a :: l.filter p else l.filter p := by
  by_cases h : p a
  · rw [if_pos h]
    exact List.filter_cons_of_pos h
  · rw [if_neg h]
    exact List.filter_cons_of_neg h

theorem find?_eq_some_split {α : Type} (p : α → Bool) :
    ∀ (l : List α) (a : α), l.find? p = some a →
      ∃ l1 l2, l = l1 ++ a :: l2 ∧ (∀ x ∈ l1, p x = false) ∧ p a = true := by
  intro l
  induction l with
  | nil => intro a h; simp at h
  | cons x xs ih =>
    intro a h
    by_cases hx : p x
    · rw [List.find?_cons_of_pos _ hx] at h
      obtain rfl : x = a := by simpa using h
      exact ⟨[], xs, rfl, by simp, hx⟩
    · rw [List.find?_cons_of_neg _ hx] at h
      obtain ⟨l1, l2, rfl, hl1, ha⟩ := ih a h
      exact ⟨x :: l1, l2, rfl, by
        intro y hy
        rcases List.mem_cons.mp hy with rfl | hy
        · exact Bool.eq_false_iff.mpr hx
        · exact hl1 y hy, ha⟩

theorem mem_of_find_value {store : List TokenRec} {v : String} {t : TokenRec}
    (h : find_by_token_value store v = some t) :
    t ∈ store ∧ (t.status = Status.active ∨ t.status = Status.expired) ∧
      verify_password v t.tokenHash = true := by
  have hmem := List.mem_of_find?_eq_some h
  have hver := List.find?_some h
  have hc := (List.mem_filter.mp hmem)
  refine ⟨hc.1, ?_, hver⟩
  have := hc.2
  simp only [Bool.or_eq_true, beq_iff_eq] at this
  exact this

theorem updateById_id_of_firstById_none {store : List TokenRec} {i : Nat}
    (h : firstById store i = none) (f : TokenRec → TokenRec) :
    updateById store i f = store := by
  induction store with
  | nil => rfl
  | cons r rs ih =>
    unfold firstById at h ih
    rw [find?_cons_eq] at h
    by_cases hr : r.id == i
    · rw [if_pos hr] at h; simp at h
    · rw [if_neg hr] at h
      simp only [updateById]
      rw [if_neg hr, ih h]

theorem firstById_updateById_self {store : List TokenRec} {i : Nat} {t : TokenRec}
    (h : firstById store i = some t) (f : TokenRec → TokenRec) (hf : (f t).id = t.id)
    (hti : t.id = i) : firstById (updateById store i f) i = some (f t) := by
  induction store with
  | nil => simp [firstById] at h
  | cons r rs ih =>
    unfold firstById at h ⊢
    rw [find?_cons_eq] at h
    by_cases hr : r.id == i
    · rw [if_pos hr] at h
      obtain rfl : r = t := by simpa using h
      simp only [updateById, if_pos hr]
      rw [find?_cons_eq, if_pos (by simp [hf, hti])]
    · rw [if_neg hr] at h
      simp only [updateById, if_neg hr]
      unfold firstById at ih
      rw [find?_cons_eq, if_neg hr]
      exact ih h

theorem firstById_updateById_ne {store : List TokenRec} {i j : Nat}
    (f : TokenRec → TokenRec) (hf : ∀ r, (f r).id = r.id) (hij : j ≠ i) :
    firstById (updateById store i f) j = firstById store j := by
  induction store with
  | nil => rfl
  | cons r rs ih =>
    simp only [updateById]
    by_cases hr : r.id == i
    · rw [if_pos hr]
      unfold firstById
      by_cases hj : r.id == j
      · exact absurd (by rw [← (beq_iff_eq).mp hj]; exact (beq_iff_eq).mp hr) hij
      · rw [find?_cons_eq, if_neg (by simpa [hf] using hj),
            find?_cons_eq, if_neg hj]
    · rw [if_neg hr]
      unfold firstById at ih ⊢
      by_cases hj : r.id == j
      · rw [find?_cons_eq, if_pos hj, find?_cons_eq, if_pos hj]
      · rw [find?_cons_eq, if_neg hj, find?_cons_eq, if_neg hj]
        exact ih

theorem updateById_map_id {store : List TokenRec} {i : Nat}
    {f : TokenRec → TokenRec} (hf : ∀ r, (f r).id = r.id) :
    (updateById store i f).map TokenRec.id = store.map TokenRec.id := by
  induction store with
  | nil => rfl
  | cons r rs ih =>
    simp only [updateById]
    by_cases hr : r.id == i
    · rw [if_pos hr]; simp [hf]
    · rw [if_neg hr]; simp [ih]

theorem updateById_map_eq {α : Type} {store : List TokenRec} {i : Nat}
    {f : TokenRec → TokenRec} (g : TokenRec → α) (hfg : ∀ r, g (f r) = g r) :
    (updateById store i f).map g = store.map g := by
  induction store with
  | nil => rfl
  | cons r rs ih =>
    simp only [updateById]
    by_cases hr : r.id == i
    · rw [if_pos hr]; simp [hfg]
    · rw [if_neg hr]; simp [ih]

theorem firstById_of_mem {store : List TokenRec} {t : TokenRec}
    (hnd : (store.map TokenRec.id).Nodup) (ht : t ∈ store) :
    firstById store t.id = some t := by
  induction store with
  | nil => simp at ht
  | cons r rs ih =>
    rcases List.mem_cons.mp ht with rfl | ht
    · unfold firstById
      rw [find?_cons_eq, if_pos (by simp)]
    · have hnd' : (rs.map TokenRec.id).Nodup := (List.nodup_cons.mp hnd).2
      have hne : r.id ≠ t.id := by
        intro he
        exact (List.nodup_cons.mp hnd).1 (he ▸ List.mem_map_of_mem TokenRec.id ht)
      unfold firstById
      rw [find?_cons_eq, if_neg (by simpa using hne)]
      exact ih hnd' ht

/-! Status evolution lemmas, generic in the per-record step relation. -/

theorem expireStep_refl (a : Status) : ExpireStep a a := Or.inl rfl

theorem expireStep_trans {a b c : Status} (h1 : ExpireStep a b) (h2 : ExpireStep b c) :
    ExpireStep a c := by
  rcases h1 with rfl | ⟨rfl, rfl⟩
  · exact h2
  · rcases h2 with rfl | ⟨h2, _⟩
    · exact Or.inr ⟨rfl, rfl⟩
    · exact absurd h2 (by simp)

theorem stepEvolves_refl (R : Status → Status → Prop) (hR : ∀ a, R a a)
    (s : List TokenRec) : StepEvolves R s s := by
  induction s with
  | nil => exact List.Forall₂.nil
  | cons r rs ih => exact List.Forall₂.cons ⟨rfl, hR r.status⟩ ih

theorem stepEvolves_trans {R : Status → Status → Prop}
    (hR : ∀ a b c, R a b → R b c → R a c) {s t u : List TokenRec}
    (h1 : StepEvolves R s t) (h2 : StepEvolves R t u) : StepEvolves R s u := by
  induction h1 generalizing u with
  | nil => cases h2; exact List.Forall₂.nil
  | cons hab h1 ih =>
    cases h2 with
    | cons hbc h2 =>
      exact List.Forall₂.cons ⟨hab.1.trans hbc.1, hR _ _ _ hab.2 hbc.2⟩ (ih h2)

theorem stepEvolves_updateById {R : Status → Status → Prop} (hR : ∀ a, R a a)
    {store : List TokenRec} {i : Nat} {t : TokenRec}
    {f : TokenRec → TokenRec} (hf : ∀ r, (f r).id = r.id)
    (h : firstById store i = some t) (hstep : R t.status (f t).status) :
    StepEvolves R store (updateById store i f) := by
  induction store with
  | nil => exact List.Forall₂.nil
  | cons r rs ih =>
    unfold firstById at h ih
    rw [find?_cons_eq] at h
    by_cases hr : r.id == i
    · rw [if_pos hr] at h
      obtain rfl : r = t := by simpa using h
      simp only [updateById, if_pos hr]
      exact List.Forall₂.cons ⟨(hf r).symm, hstep⟩ (stepEvolves_refl R hR rs)
    · rw [if_neg hr] at h
      simp only [updateById, if_neg hr]
      exact List.Forall₂.cons ⟨rfl, hR r.status⟩ (ih h)

theorem stepEvolves_map {R : Status → Status → Prop} {store : List TokenRec}
    {f : TokenRec → TokenRec}
    (hf : ∀ r, (f r).id = r.id ∧ R r.status (f r).status) :
    StepEvolves R store (store.map f) := by
  induction store with
  | nil => exact List.Forall₂.nil
  | cons r rs ih =>
    exact List.Forall₂.cons ⟨(hf r).1.symm, (hf r).2⟩ ih

/-- Case analysis of `validate_token_access`: either no candidate verifies and
everything is untouched, or a record matched and the call ends in one of the
three store shapes (untouched failure, lazy expiry write, usage update). -/
theorem validate_store_spec (store : List TokenRec) (now : Int) (v : String)
    (ps ss : List String) (ip : Option String) :
    (find_by_token_value store v = none ∧
       validate_token_access store now v ps ss ip = (⟨false, "Invalid token", none⟩, store)) ∨
    (∃ t, find_by_token_value store v = some t ∧
      (((validate_token_access store now v ps ss ip).1.ok = false ∧
          (validate_token_access store now v ps ss ip).2 = store) ∨
       (t.status = Status.active ∧ is_token_expired now t.expiresAt = true ∧
          validate_token_access store now v ps ss ip =
            (⟨false, "Token has expired", none⟩, markExpired store t.id)) ∨
       (t.status = Status.active ∧ is_token_expired now t.expiresAt = false ∧
          validate_token_access store now v ps ss ip =
            (⟨true, "Access granted", some t.toInfo⟩,
              increment_api_calls store now t.id ip)))) := by
  rcases hf : find_by_token_value store v with _ | t
  · exact Or.inl ⟨rfl, by simp [validate_token_access, hf]⟩
  · refine Or.inr ⟨t, rfl, ?_⟩
    by_cases hst : t.status = Status.active
    · by_cases hexp : is_token_expired now t.expiresAt
      · exact Or.inr (Or.inl ⟨hst, hexp, by
          simp [validate_token_access, hf, hst, hexp]⟩)
      · by_cases hipr : (!t.ipRestrictions.isEmpty && !truthyStr ip) = true
        · exact Or.inl (by simp [validate_token_access, hf, hst, hexp, hipr])
        · by_cases hipc :
              (!t.ipRestrictions.isEmpty && !check_ip_restriction ip t.ipRestrictions) = true
          · exact Or.inl (by simp [validate_token_access, hf, hst, hexp, hipr, hipc])
          · rcases hp : firstMissing ps t.permissions with _ | p
            · rcases hs : firstMissing ss t.scopes with _ | sc
              · exact Or.inr (Or.inr ⟨hst, by simpa using hexp, by
                  simp [validate_token_access, hf, hst, hexp, hipr, hipc, hp, hs]⟩)
              · exact Or.inl (by
                  simp [validate_token_access, hf, hst, hexp, hipr, hipc, hp, hs])
            · exact Or.inl (by simp [validate_token_access, hf, hst, hexp, hipr, hipc, hp])
    · exact Or.inl (by simp [validate_token_access, hf, hst])

/-- After the lazy expiry write on the matched record, the same presented
secret still matches the same (now expired) record: the candidate scan keeps
expired records and the stored hash was not touched. -/
theorem find_value_markExpired {v : String} :
    ∀ (store : List TokenRec), (store.map TokenRec.id).Nodup →
      ∀ {t : TokenRec}, find_by_token_value store v = some t →
        find_by_token_value (markExpired store t.id) v = some (expireOnlyF t) := by
  intro store
  induction store with
  | nil => intro _ t h; simp [find_by_token_value, candidateTokens] at h
  | cons r rs ih =>
    intro hnd t h
    have hnd' : (rs.map TokenRec.id).Nodup := (List.nodup_cons.mp hnd).2
    by_cases hc : (r.status == Status.active || r.status == Status.expired) = true
    · rw [find_by_token_value, candidateTokens, filter_cons_eq, if_pos hc,
        find?_cons_eq] at h
      by_cases hv : verify_password v r.tokenHash
      · rw [if_pos hv] at h
        obtain rfl : r = t := by simpa using h
        have hm : markExpired (r :: rs) r.id = expireOnlyF r :: rs := by
          simp only [markExpired, updateById]
          rw [if_pos (by simp : (r.id == r.id) = true)]
        rw [hm, find_by_token_value, candidateTokens, filter_cons_eq,
          if_pos (by simp [expireOnlyF]), find?_cons_eq,
          if_pos (by simpa [expireOnlyF] using hv)]
      · rw [if_neg hv] at h
        have ht : t ∈ rs := (mem_of_find_value h).1
        have hne : r.id ≠ t.id := by
          intro he
          exact (List.nodup_cons.mp hnd).1 (he ▸ List.mem_map_of_mem TokenRec.id ht)
        have hm : markExpired (r :: rs) t.id = r :: markExpired rs t.id := by
          simp only [markExpired, updateById]
          rw [if_neg (show ¬((r.id == t.id) = true) by simpa using hne)]
        rw [hm, find_by_token_value, candidateTokens, filter_cons_eq, if_pos hc,
          find?_cons_eq, if_neg hv]
        exact ih hnd' h
    · rw [find_by_token_value, candidateTokens, filter_cons_eq, if_neg hc] at h
      have ht : t ∈ rs := (mem_of_find_value h).1
      have hne : r.id ≠ t.id := by
        intro he
        exact (List.nodup_cons.mp hnd).1 (he ▸ List.mem_map_of_mem TokenRec.id ht)
      have hm : markExpired (r :: rs) t.id = r :: markExpired rs t.id := by
        simp only [markExpired, updateById]
        rw [if_neg (show ¬((r.id == t.id) = true) by simpa using hne)]
      rw [hm, find_by_token_value, candidateTokens, filter_cons_eq, if_neg hc]
      exact ih hnd' h

theorem lazyExpireCond_active {now : Int} {t : TokenRec}
    (h : lazyExpireCond now t = true) : t.status = Status.active := by
  simp only [lazyExpireCond, Bool.and_eq_true, beq_iff_eq] at h
  exact h.1.1

/-- Invariants of the read-path loop: ids of the store are preserved; every
snapshot record ends up exactly once in the final store, expired when the
lazy condition held; untouched ids keep their record; and the statuses only
evolve along the state machine. -/
theorem processUserTokens_store (now : Int) :
    ∀ (ts st : List TokenRec),
      (st.map TokenRec.id).Nodup →
      (ts.map TokenRec.id).Nodup →
      (∀ t ∈ ts, firstById st t.id = some t) →
      ((processUserTokens now ts st).2.map TokenRec.id = st.map TokenRec.id) ∧
      (∀ t ∈ ts, firstById (processUserTokens now ts st).2 t.id =
          some (if lazyExpireCond now t then expireUpdF now t else t)) ∧
      (∀ j, j ∉ ts.map TokenRec.id →
          firstById (processUserTokens now ts st).2 j = firstById st j) ∧
      StepEvolves ExpireStep st (processUserTokens now ts st).2 := by
  intro ts
  induction ts with
  | nil =>
    intro st hnd hts hmem
    exact ⟨rfl, by simp, fun j _ => rfl, stepEvolves_refl ExpireStep expireStep_refl st⟩
  | cons t ts ih =>
    intro st hnd hts hmem
    have hft : firstById st t.id = some t := hmem t (List.mem_cons_self t ts)
    have hid : ∀ r, (expireUpdF now r).id = r.id := fun r => rfl
    have htid : t.id ∉ ts.map TokenRec.id := (List.nodup_cons.mp hts).1
    have hts' : (ts.map TokenRec.id).Nodup := (List.nodup_cons.mp hts).2
    by_cases hExp : lazyExpireCond now t = true
    · have hstep : processUserTokens now (t :: ts) st =
          (t.toView Status.expired ::
            (processUserTokens now ts (updateById st t.id (expireUpdF now))).1,
           (processUserTokens now ts (updateById st t.id (expireUpdF now))).2) := by
        simp [processUserTokens, hExp]
      have hnd1 : ((updateById st t.id (expireUpdF now)).map TokenRec.id).Nodup := by
        rw [updateById_map_id hid]; exact hnd
      have hmem1 : ∀ u ∈ ts, firstById (updateById st t.id (expireUpdF now)) u.id = some u := by
        intro u hu
        have hne : u.id ≠ t.id := by
          intro he
          exact htid (he ▸ List.mem_map_of_mem TokenRec.id hu)
        rw [firstById_updateById_ne _ hid hne]
        exact hmem u (List.mem_cons_of_mem t hu)
      obtain ⟨ihmap, ihself, ihother, ihevo⟩ :=
        ih (updateById st t.id (expireUpdF now)) hnd1 hts' hmem1
      refine ⟨?_, ?_, ?_, ?_⟩
      · rw [hstep]
        rw [ihmap, updateById_map_id hid]
      · intro u hu
        rcases List.mem_cons.mp hu with rfl | hu
        · rw [hstep]
          rw [ihother u.id htid,
            firstById_updateById_self hft (expireUpdF now) (hid u) rfl, if_pos hExp]
        · rw [hstep]
          exact ihself u hu
      · intro j hj
        have hjt : j ≠ t.id := by
          intro he
          exact hj (by simp [he])
        have hjts : j ∉ ts.map TokenRec.id := fun hin => hj (by simp [List.mem_cons_of_mem, hin])
        rw [hstep, ihother j hjts, firstById_updateById_ne _ hid hjt]
      · rw [hstep]
        refine @stepEvolves_trans ExpireStep (fun a b c h1 h2 => expireStep_trans h1 h2) _ _ _ ?_ ihevo
        refine stepEvolves_updateById expireStep_refl hid hft ?_
        rw [lazyExpireCond_active hExp]
        exact Or.inr ⟨rfl, rfl⟩
    · have hstep : processUserTokens now (t :: ts) st =
          (t.toView t.status :: (processUserTokens now ts st).1,
           (processUserTokens now ts st).2) := by
        simp [processUserTokens, hExp]
      obtain ⟨ihmap, ihself, ihother, ihevo⟩ := ih st hnd hts'
        (fun u hu => hmem u (List.mem_cons_of_mem t hu))
      refine ⟨?_, ?_, ?_, ?_⟩
      · rw [hstep, ihmap]
      · intro u hu
        rcases List.mem_cons.mp hu with rfl | hu
        · rw [hstep, ihother u.id htid, hft, if_neg hExp]
        · rw [hstep]
          exact ihself u hu
      · intro j hj
        have hjts : j ∉ ts.map TokenRec.id := fun hin => hj (List.mem_cons_of_mem _ hin)
        rw [hstep]
        exact ihother j hjts
      · rw [hstep]
        exact ihevo

/-- Per-element shape of the views produced by the read loop: no view is
reported active while past its expiry. -/
theorem processUserTokens_views (now : Int) :
    ∀ (ts st : List TokenRec) (w : TokenView), w ∈ (processUserTokens now ts st).1 →
      ¬(w.status = Status.active ∧ is_token_expired now w.expiresAt = true) := by
  intro ts
  induction ts with
  | nil => intro st w hw; simp [processUserTokens] at hw
  | cons t ts ih =>
    intro st w hw
    simp only [processUserTokens, List.mem_cons] at hw
    rcases hw with rfl | hw
    · by_cases hExp : lazyExpireCond now t = true
      · rw [if_pos hExp]
        rintro ⟨hs, _⟩
        exact Status.noConfusion (hs : Status.expired = Status.active)
      · rw [if_neg hExp]
        rintro ⟨hs, he⟩
        apply hExp
        have hs' : t.status = Status.active := hs
        have he' : is_token_expired now t.expiresAt = true := he
        have hsome : t.expiresAt.isSome = true := by
          rcases hx : t.expiresAt with _ | e
          · rw [hx] at he'; simp [is_token_expired] at he'
          · simp
        simp [lazyExpireCond, hs', he', hsome]
    · exact ih _ w hw

/-! Rate-limit non-interference machinery. -/

theorem sameButRate_refl (t : TokenRec) : SameButRate t t := rfl

theorem SameButRate.id_eq {t u : TokenRec} (h : SameButRate t u) : t.id = u.id :=
  by
  have h2 := congrArg TokenRec.id (show scrubRate t = scrubRate u from h)
  exact h2

theorem SameButRate.status_eq {t u : TokenRec} (h : SameButRate t u) : t.status = u.status :=
  by
  have h2 := congrArg TokenRec.status (show scrubRate t = scrubRate u from h)
  exact h2

theorem SameButRate.hash_eq {t u : TokenRec} (h : SameButRate t u) :
    t.tokenHash = u.tokenHash :=
  by
  have h2 := congrArg TokenRec.tokenHash (show scrubRate t = scrubRate u from h)
  exact h2

theorem SameButRate.expiresAt_eq {t u : TokenRec} (h : SameButRate t u) :
    t.expiresAt = u.expiresAt :=
  by
  have h2 := congrArg TokenRec.expiresAt (show scrubRate t = scrubRate u from h)
  exact h2

theorem SameButRate.ipRestrictions_eq {t u : TokenRec} (h : SameButRate t u) :
    t.ipRestrictions = u.ipRestrictions :=
  by
  have h2 := congrArg TokenRec.ipRestrictions (show scrubRate t = scrubRate u from h)
  exact h2

theorem SameButRate.permissions_eq {t u : TokenRec} (h : SameButRate t u) :
    t.permissions = u.permissions :=
  by
  have h2 := congrArg TokenRec.permissions (show scrubRate t = scrubRate u from h)
  exact h2

theorem SameButRate.scopes_eq {t u : TokenRec} (h : SameButRate t u) :
    t.scopes = u.scopes :=
  by
  have h2 := congrArg TokenRec.scopes (show scrubRate t = scrubRate u from h)
  exact h2

theorem SameButRate.scrubInfo_eq {t u : TokenRec} (h : SameButRate t u) :
    scrubInfo t.toInfo = scrubInfo u.toInfo :=
  by
  have h2 := congrArg TokenRec.toInfo (show scrubRate t = scrubRate u from h)
  exact h2

theorem SameButRate.incrementF {now : Int} {ip : Option String} {t u : TokenRec}
    (h : SameButRate t u) :
    SameButRate (incrementF now ip t) (incrementF now ip u) := by
  have hc : ∀ r : TokenRec, scrubRate (KeyOrbit.incrementF now ip r) =
      KeyOrbit.incrementF now ip (scrubRate r) := fun r => rfl
  unfold SameButRate
  rw [hc, hc, h]

theorem SameButRate.expireOnlyF {t u : TokenRec} (h : SameButRate t u) :
    SameButRate (expireOnlyF t) (expireOnlyF u) := by
  have hc : ∀ r : TokenRec, scrubRate (KeyOrbit.expireOnlyF r) =
      KeyOrbit.expireOnlyF (scrubRate r) := fun r => rfl
  unfold SameButRate
  rw [hc, hc, h]

theorem sameButRate_updateById {s1 s2 : List TokenRec}
    (h : List.Forall₂ SameButRate s1 s2) (i : Nat) (f : TokenRec → TokenRec)
    (hf : ∀ a b, SameButRate a b → SameButRate (f a) (f b)) :
    List.Forall₂ SameButRate (updateById s1 i f) (updateById s2 i f) := by
  induction h with
  | nil => exact List.Forall₂.nil
  | @cons a b l1 l2 hab h ih =>
    simp only [updateById]
    rw [hab.id_eq]
    by_cases hbi : b.id == i
    · rw [if_pos hbi, if_pos hbi]
      exact List.Forall₂.cons (hf a b hab) h
    · rw [if_neg hbi, if_neg hbi]
      exact List.Forall₂.cons hab ih

/-- The hash scan is blind to rateLimit: related stores produce no match on
both sides, or related matches. -/
theorem find_value_rel {v : String} {s1 s2 : List TokenRec}
    (h : List.Forall₂ SameButRate s1 s2) :
    (find_by_token_value s1 v = none ∧ find_by_token_value s2 v = none) ∨
    (∃ t u, find_by_token_value s1 v = some t ∧ find_by_token_value s2 v = some u ∧
      SameButRate t u) := by
  induction h with
  | nil => exact Or.inl ⟨rfl, rfl⟩
  | @cons a b l1 l2 hab h ih =>
    have hstat : a.status = b.status := hab.status_eq
    have hhash : a.tokenHash = b.tokenHash := hab.hash_eq
    by_cases hc : (a.status == Status.active || a.status == Status.expired) = true
    · by_cases hv : verify_password v a.tokenHash = true
      · refine Or.inr ⟨a, b, ?_, ?_, hab⟩
        · rw [find_by_token_value, candidateTokens, filter_cons_eq, if_pos hc,
            find?_cons_eq, if_pos hv]
        · rw [find_by_token_value, candidateTokens, filter_cons_eq,
            if_pos (by rw [← hstat]; exact hc), find?_cons_eq,
            if_pos (by rw [← hhash]; exact hv)]
      · have e1 : find_by_token_value (a :: l1) v = find_by_token_value l1 v := by
          rw [find_by_token_value, candidateTokens, filter_cons_eq, if_pos hc,
            find?_cons_eq, if_neg hv, find_by_token_value, candidateTokens]
        have e2 : find_by_token_value (b :: l2) v = find_by_token_value l2 v := by
          rw [find_by_token_value, candidateTokens, filter_cons_eq,
            if_pos (by rw [← hstat]; exact hc), find?_cons_eq,
            if_neg (by rw [← hhash]; exact hv), find_by_token_value, candidateTokens]
        rw [e1, e2]
        exact ih
    · have e1 : find_by_token_value (a :: l1) v = find_by_token_value l1 v := by
        rw [find_by_token_value, candidateTokens, filter_cons_eq, if_neg hc,
          find_by_token_value, candidateTokens]
      have e2 : find_by_token_value (b :: l2) v = find_by_token_value l2 v := by
        rw [find_by_token_value, candidateTokens, filter_cons_eq,
          if_neg (by rw [← hstat]; exact hc), find_by_token_value, candidateTokens]
      rw [e1, e2]
      exact ih

theorem ip_restrictions_error_of_bad {ips : List String} {e : String}
    (he : e ∈ ips) (hbad : write_ip_entry_ok e = false) :
    ∃ msg, ip_restrictions_error ips = some msg := by
  rcases h : ip_restrictions_error ips with _ | msg
  · exfalso
    have hnone := List.findSome?_eq_none_iff.mp h e he
    rw [write_ip_entry_ok, hnone] at hbad
    simp at hbad
  · exact ⟨msg, rfl⟩

/-- Once the guards (non-empty allow list, truthy client IP) are resolved,
the body of the check is the literal-membership test followed by the CIDR
scan. -/
theorem check_ip_restriction_unfold (ip : String) (l : List String)
    (hl : l.isEmpty = false) (hip : ip ≠ "") :
    check_ip_restriction (some ip) l =
      (if l.contains ip then true
       else l.any (fun r =>
        if r.data.contains '/' then
          match ip_network_parse r, ip_address_parse ip with
          | some net, some a => inNetwork a net
          | _, _ => false
        else false)) := by
  have htr : truthyStr (some ip) = true := by simp [truthyStr, hip]
  rw [check_ip_restriction, hl]
  rw [if_neg Bool.false_ne_true]
  rw [htr, Bool.not_true, if_neg Bool.false_ne_true]
  rfl

/-- C6: with an empty allow list every client (even an absent one) is
permitted; with a non-empty allow list a client IP is required, and a present
client IP is allowed exactly when it equals one of the entries literally or
lies inside an entry that parses as a CIDR network; in particular
10.0.0.5 is inside 10.0.0.0/24 and 10.0.1.5 is not. -/
theorem c6_ip_allowed :
    (∀ ip : Option String, check_ip_restriction ip [] = true) ∧
    (∀ (ip : Option String) (allow : List String), allow ≠ [] → truthyStr ip = false →
      check_ip_restriction ip allow = false) ∧
    (∀ (ip : String) (allow : List String), allow ≠ [] → ip ≠ "" →
      (check_ip_restriction (some ip) allow = true ↔
        (allow.contains ip = true ∨
          ∃ e ∈ allow, e.data.contains '/' = true ∧
            ∃ net a, ip_network_parse e = some net ∧ ip_address_parse ip = some a ∧
              inNetwork a net = true))) ∧
    check_ip_restriction (some "10.0.0.5") ["10.0.0.0/24"] = true ∧
    check_ip_restriction (some "10.0.1.5") ["10.0.0.0/24"] = false := by
  refine ⟨?_, ?_, ?_, by decide, by decide⟩
  · intro ip
    simp [check_ip_restriction]
  · intro ip allow h1 h2
    have hne : allow.isEmpty = false := by
      cases allow
      · exact absurd rfl h1
      · rfl
    simp [check_ip_restriction, hne, h2]
  · intro ip allow h1 h2
    have hne : allow.isEmpty = false := by
      cases allow
      · exact absurd rfl h1
      · rfl
    rw [check_ip_restriction_unfold ip allow hne h2]
    by_cases hc : allow.contains ip = true
    · rw [if_pos hc]
      exact ⟨fun _ => Or.inl hc, fun _ => rfl⟩
    · rw [if_neg hc, List.any_eq_true]
      constructor
      · rintro ⟨e, hmem, hfe⟩
        refine Or.inr ⟨e, hmem, ?_⟩
        by_cases hsl : e.data.contains '/' = true
        · rw [if_pos hsl] at hfe
          rcases hn : ip_network_parse e with _ | net <;>
            rcases ha : ip_address_parse ip with _ | a <;>
              rw [hn, ha] at hfe
          · simp at hfe
          · simp at hfe
          · simp at hfe
          · exact ⟨hsl, net, a, rfl, rfl, hfe⟩
        · rw [if_neg hsl] at hfe
          simp at hfe
      · rintro (hcontra | ⟨e, hmem, hsl, net, a, hn, ha, hin⟩)
        · exact absurd hcontra hc
        · exact ⟨e, hmem, by rw [if_pos hsl, hn, ha]; exact hin⟩

theorem c6_ip_allowed_witness :
    check_ip_restriction none [] = true ∧
    check_ip_restriction none ["10.0.0.0/24"] = false ∧
    check_ip_restriction (some "172.16.9.9") ["172.16.9.9"] = true :=
  ⟨c6_ip_allowed.1 none,
   c6_ip_allowed.2.1 none ["10.0.0.0/24"] (by decide) (by decide),
   (c6_ip_allowed.2.2.1 "172.16.9.9" ["172.16.9.9"] (by decide) (by decide)).mpr
     (Or.inl (by decide))⟩

/-- C8 counterexample: the entry 010.0.0.0/24 passes the write-time regex
grammar (whose octet groups admit leading zeros), yet the check-time address
parser rejects it, so evaluating a client inside that network silently skips
the entry and denies the client, while the equivalent canonical entry allows
it.  This falsifies the claim that ipAllowed never skips over an entry it
cannot parse. -/
theorem c8_counterexample :
    write_ip_entry_ok "010.0.0.0/24" = true ∧
    ip_network_parse "010.0.0.0/24" = none ∧
    check_ip_restriction (some "10.0.0.5") ["010.0.0.0/24"] = false ∧
    check_ip_restriction (some "10.0.0.5") ["10.0.0.0/24"] = true := by
  refine ⟨by decide, by decide, by decide, by decide⟩

/-- C8 (amended): token creation and metadata update reject any allow list
containing an entry that fails the write-time grammar, with an input error
and no store write; at check time, however, an entry the address parser
cannot parse is silently skipped while the remaining entries are evaluated
(it is not the case that ipAllowed never skips an unparseable entry). -/
theorem c8_write_time_validation (store : List TokenRec) (now : Int)
    (new_id salt : Nat) (fresh : String) (user_id token_id : Nat)
    (d : CreateData) (u : TokenUpdates) (ips : List String) :
    ((∃ e ∈ d.ipRestrictions, write_ip_entry_ok e = false) →
      ∃ msg, create_api_token_route store now new_id salt fresh user_id d =
        (Except.error msg, store)) ∧
    ((u.ipRestrictions = some ips ∧ ∃ e ∈ ips, write_ip_entry_ok e = false) →
      ∃ msg, update_token store now user_id token_id u = ((false, msg), store)) ∧
    (∀ (ip e : String) (rest : List String), ip ≠ "" → ip_network_parse e = none →
      e ≠ ip → rest ≠ [] →
      check_ip_restriction (some ip) (e :: rest) = check_ip_restriction (some ip) rest) := by
  refine ⟨?_, ?_, ?_⟩
  · rintro ⟨e, he, hbad⟩
    by_cases h1 : (d.name == "") = true
    · exact ⟨_, by rw [create_api_token_route, if_pos h1]⟩
    · by_cases h2 : d.permissions.isEmpty = true
      · exact ⟨_, by rw [create_api_token_route, if_neg h1, if_pos h2]⟩
      · rcases hp : d.permissions.find? (fun p => !valid_permissions.contains p) with _ | p
        · by_cases h3 : (match d.rateLimit with
              | some v => decide (v < 1) || decide (10000 < v)
              | none => false) = true
          · exact ⟨_, by
              rw [create_api_token_route, if_neg h1, if_neg h2]
              rw [hp]
              rw [if_pos h3]⟩
          · by_cases h4 : (match d.expiresAt with
                | some e => decide (e ≤ now)
                | none => false) = true
            · exact ⟨_, by
                rw [create_api_token_route, if_neg h1, if_neg h2]
                rw [hp]
                rw [if_neg h3, if_pos h4]⟩
            · obtain ⟨msg, hmsg⟩ := ip_restrictions_error_of_bad he hbad
              exact ⟨msg, by
                rw [create_api_token_route, if_neg h1, if_neg h2]
                rw [hp]
                rw [if_neg h3, if_neg h4]
                rw [hmsg]⟩
        · exact ⟨_, by
            rw [create_api_token_route, if_neg h1, if_neg h2]
            rw [hp]⟩
  · rintro ⟨hips, e, he, hbad⟩
    rcases hf : find_by_user_and_id store user_id token_id with _ | t
    · exact ⟨"Token not found", by simp only [update_token, hf]⟩
    · by_cases h1 : (t.status != Status.active) = true
      · exact ⟨_, by
          simp only [update_token, hf]
          rw [if_pos h1]⟩
      · by_cases h2 : (match u.expiresAt with
            | some e => decide (e ≤ now)
            | none => false) = true
        · exact ⟨_, by
            simp only [update_token, hf]
            rw [if_neg h1, if_pos h2]⟩
        · by_cases h3 : (match u.rateLimit with
              | some v => decide (v < 1) || decide (10000 < v)
              | none => false) = true
          · exact ⟨_, by
              simp only [update_token, hf]
              rw [if_neg h1, if_neg h2, if_pos h3]⟩
          · obtain ⟨msg, hmsg⟩ := ip_restrictions_error_of_bad he hbad
            exact ⟨msg, by
              simp only [update_token, hf]
              rw [if_neg h1, if_neg h2, if_neg h3]
              rw [hips]
              simp only [Option.bind]
              rw [hmsg]⟩
  · intro ip e rest hip hparse hne hrest
    have hrne : rest.isEmpty = false := by
      cases rest
      · exact absurd rfl hrest
      · rfl
    rw [check_ip_restriction_unfold ip (e :: rest) rfl hip,
      check_ip_restriction_unfold ip rest hrne hip]
    have hcons : (e :: rest).contains ip = rest.contains ip := by
      rw [List.contains_cons]
      have hipe : (ip == e) = false := by
        simp only [beq_eq_false_iff_ne, ne_eq]
        exact fun h => hne (h.symm)
      rw [hipe, Bool.false_or]
    have hfe : (if e.data.contains '/' then
        (match ip_network_parse e, ip_address_parse ip with
         | some net, some a => inNetwork a net
         | _, _ => false)
        else false) = false := by
      by_cases hsl : e.data.contains '/' = true
      · rw [if_pos hsl, hparse]
      · rw [if_neg hsl]
    rw [hcons, List.any_cons, hfe, Bool.false_or]

theorem c8_write_time_validation_witness :
    (∃ msg, create_api_token_route [] 100 1 1 "freshsecret" 1
      { name := "n", description := "", permissions := ["key:read"], scopes := [],
        rateLimit := none, ipRestrictions := ["999.0.0.1"], expiresAt := none } =
      (Except.error msg, [])) ∧
    check_ip_restriction (some "10.0.0.5") ["010.0.0.0/24", "10.0.0.0/24"] =
      check_ip_restriction (some "10.0.0.5") ["10.0.0.0/24"] :=
  ⟨(c8_write_time_validation [] 100 1 1 "freshsecret" 1 1
      { name := "n", description := "", permissions := ["key:read"], scopes := [],
        rateLimit := none, ipRestrictions := ["999.0.0.1"], expiresAt := none }
      { name := none, description := none, expiresAt := none, rateLimit := none,
        ipRestrictions := none } []).1
    ⟨"999.0.0.1", by decide, by decide⟩,
   (c8_write_time_validation [] 100 1 1 "freshsecret" 1 1
      { name := "n", description := "", permissions := ["key:read"], scopes := [],
        rateLimit := none, ipRestrictions := ["999.0.0.1"], expiresAt := none }
      { name := none, description := none, expiresAt := none, rateLimit := none,
        ipRestrictions := none } []).2.2
    "10.0.0.5" "010.0.0.0/24" ["10.0.0.0/24"] (by decide) (by decide) (by decide) (by decide)⟩

/-- C2: validation locates the record by scanning exactly the records whose
status is active or expired, running hash verification on each candidate in
order until one verifies; a matched record is a verifying candidate preceded
only by non-verifying candidates; no candidate verifying is equivalent to the
scan failing, and then validate returns the single Invalid-token error value
(the same value for a malformed as for an unknown secret) and leaves the
store untouched. -/
theorem c2_validate_lookup (store : List TokenRec) (now : Int) (v : String)
    (ps ss : List String) (ip : Option String) :
    (∀ t, find_by_token_value store v = some t →
      t ∈ store ∧ (t.status = Status.active ∨ t.status = Status.expired) ∧
      verify_password v t.tokenHash = true ∧
      ∃ l1 l2, candidateTokens store = l1 ++ t :: l2 ∧
        ∀ u ∈ l1, verify_password v u.tokenHash = false) ∧
    (find_by_token_value store v = none ↔
      ∀ u ∈ store, (u.status = Status.active ∨ u.status = Status.expired) →
        verify_password v u.tokenHash = false) ∧
    (find_by_token_value store v = none →
      validate_token_access store now v ps ss ip = (⟨false, "Invalid token", none⟩, store)) := by
  refine ⟨?_, ?_, ?_⟩
  · intro t h
    obtain ⟨hmem, hstat, hver⟩ := mem_of_find_value h
    refine ⟨hmem, hstat, hver, ?_⟩
    rw [find_by_token_value] at h
    obtain ⟨l1, l2, hsplit, hl1, _⟩ := find?_eq_some_split _ _ _ h
    exact ⟨l1, l2, hsplit, fun u hu => by simpa using hl1 u hu⟩
  · rw [find_by_token_value, List.find?_eq_none]
    constructor
    · intro hall u hu hst
      have hm : u ∈ candidateTokens store :=
        List.mem_filter.mpr ⟨hu, by rcases hst with h | h <;> simp [h]⟩
      simpa using hall u hm
    · intro hall u hu
      have hm := List.mem_filter.mp hu
      have hst : u.status = Status.active ∨ u.status = Status.expired := by
        simpa using hm.2
      simp [hall u hm.1 hst]
  · intro h
    simp [validate_token_access, h]

theorem c2_validate_lookup_witness :
    validate_token_access sampleStore 100 "unknown-or-malformed" [] [] none =
      (⟨false, "Invalid token", none⟩, sampleStore) :=
  (c2_validate_lookup sampleStore 100 "unknown-or-malformed" [] [] none).2.2 (by decide)

/-- C7: regeneration refuses a missing record and a record that is not
active, writing nothing in either case; on an active record it rewrites, in
one store update, the secret hash and the preview (both derived from the one
fresh secret) while resetting the usage fields, keeps every other field of
the record (id, owner, name, permissions, scopes, allow list, status,
expiry) and leaves every other record untouched, returning the fresh
secret. -/
theorem c7_regenerate (store : List TokenRec) (now : Int) (salt : Nat) (fresh : String)
    (user_id token_id : Nat) (hnd : (store.map TokenRec.id).Nodup) :
    (find_by_user_and_id store user_id token_id = none →
      regenerate_api_token store now salt fresh user_id token_id =
        ((none, some "Token not found"), store)) ∧
    (∀ t, find_by_user_and_id store user_id token_id = some t → t.status ≠ Status.active →
      regenerate_api_token store now salt fresh user_id token_id =
        ((none, some ("Cannot regenerate " ++ t.status.str ++ " token")), store)) ∧
    (∀ t, find_by_user_and_id store user_id token_id = some t → t.status = Status.active →
      (regenerate_api_token store now salt fresh user_id token_id).1 = (some fresh, none) ∧
      (regenerate_api_token store now salt fresh user_id token_id).2 =
        updateById store token_id (regenF salt fresh now) ∧
      firstById (regenerate_api_token store now salt fresh user_id token_id).2 t.id =
        some { t with tokenHash := hash_password salt fresh,
                      tokenPreview := generate_token_preview fresh,
                      lastUsed := none, lastUsedIp := none, apiCalls := 0,
                      updatedAt := now } ∧
      (∀ j, j ≠ t.id →
        firstById (regenerate_api_token store now salt fresh user_id token_id).2 j =
          firstById store j)) := by
  refine ⟨?_, ?_, ?_⟩
  · intro h
    simp only [regenerate_api_token, h]
  · intro t h hst
    simp only [regenerate_api_token, h]
    rw [if_pos (by simpa using hst)]
  · intro t h hst
    have hmem : t ∈ store := List.mem_of_find?_eq_some h
    have hpred := List.find?_some h
    have hti : t.id = token_id := by
      have := (Bool.and_eq_true _ _).mp hpred
      simpa using this.1
    have hreg : regenerate_api_token store now salt fresh user_id token_id =
        ((some fresh, none), updateById store token_id (regenF salt fresh now)) := by
      simp only [regenerate_api_token, h]
      rw [if_neg (by simp [hst])]
    refine ⟨by rw [hreg], by rw [hreg], ?_, ?_⟩
    · rw [hreg]
      have hfb : firstById store token_id = some t := by
        rw [← hti]
        exact firstById_of_mem hnd hmem
      have hself := firstById_updateById_self hfb (regenF salt fresh now) rfl hti
      conv_lhs => rw [hti]
      exact hself
    · intro j hj
      rw [hreg]
      exact firstById_updateById_ne _ (fun r => rfl) (hti ▸ hj)

theorem c7_regenerate_witness :
    (regenerate_api_token sampleStore 100 7 "fresh-secret-value" 1 10).1 =
      (some "fresh-secret-value", none) ∧
    firstById (regenerate_api_token sampleStore 100 7 "fresh-secret-value" 1 10).2 10 =
      some { tokActive with tokenHash := hash_password 7 "fresh-secret-value",
                            tokenPreview := generate_token_preview "fresh-secret-value",
                            lastUsed := none, lastUsedIp := none, apiCalls := 0,
                            updatedAt := 100 } ∧
    (regenerate_api_token sampleStore 100 7 "fresh-secret-value" 1 11).1 =
      (none, some "Cannot regenerate expired token") :=
  ⟨((c7_regenerate sampleStore 100 7 "fresh-secret-value" 1 10 (by decide)).2.2
      tokActive (by decide) (by decide)).1,
   ((c7_regenerate sampleStore 100 7 "fresh-secret-value" 1 10 (by decide)).2.2
      tokActive (by decide) (by decide)).2.2.1,
   by
    rw [(c7_regenerate sampleStore 100 7 "fresh-secret-value" 1 11 (by decide)).2.1
      tokExpired (by decide) (by decide)]
    decide⟩

/-- C5 counterexample: the hybrid gate accepts a structurally valid, unexpired
JWT even though no session record for it exists (here the backing session has
just been deleted), contradicting the claim that the JWT path requires a
corresponding live session record. -/
theorem c5_counterexample :
    delete_session [sampleSession] "jwt-bearer" = [] ∧
    verify_jwt sampleJwtEnv 10 "jwt-bearer" = some ⟨7, 1000⟩ ∧
    hybrid_auth [] (delete_session [sampleSession] "jwt-bearer") sampleJwtEnv 10
      "jwt-bearer" none = (AuthOutcome.jwtSession ⟨7, 1000⟩, []) := by
  refine ⟨by decide, by decide, by decide⟩

/-- C5 (amended): the hybrid gate always tries API-token validation first and
only on its failure tries JWT verification; the JWT path succeeds whenever
the signature is valid and the claims unexpired, without consulting session
records at all (its result is identical for any two session stores); when
both paths fail it returns the one generic Invalid-token error. -/
theorem c5_hybrid_gate (store : List TokenRec) (sessions1 sessions2 : List SessionRec)
    (env : JwtEnv) (now : Int) (tok : String) (ip : Option String) :
    ((validate_token_access store now tok [] [] ip).1.ok = true →
      hybrid_auth store sessions1 env now tok ip =
        (AuthOutcome.apiToken (validate_token_access store now tok [] [] ip).1.info,
         (validate_token_access store now tok [] [] ip).2)) ∧
    ((validate_token_access store now tok [] [] ip).1.ok = false →
      ∀ claims, verify_jwt env now tok = some claims →
        hybrid_auth store sessions1 env now tok ip =
          (AuthOutcome.jwtSession claims, (validate_token_access store now tok [] [] ip).2)) ∧
    ((validate_token_access store now tok [] [] ip).1.ok = false →
      verify_jwt env now tok = none →
      hybrid_auth store sessions1 env now tok ip =
        (AuthOutcome.unauthorized "Invalid token",
         (validate_token_access store now tok [] [] ip).2)) ∧
    hybrid_auth store sessions1 env now tok ip = hybrid_auth store sessions2 env now tok ip := by
  refine ⟨?_, ?_, ?_, rfl⟩
  · intro hok
    simp only [hybrid_auth]
    rw [if_pos hok]
  · intro hok claims hjwt
    simp only [hybrid_auth]
    rw [if_neg (by simp [hok]), hjwt]
  · intro hok hjwt
    simp only [hybrid_auth]
    rw [if_neg (by simp [hok]), hjwt]

theorem c5_hybrid_gate_witness :
    hybrid_auth [] [] sampleJwtEnv 10 "jwt-bearer" none =
      (AuthOutcome.jwtSession ⟨7, 1000⟩, []) ∧
    hybrid_auth [] [] sampleJwtEnv 10 "garbage" none =
      (AuthOutcome.unauthorized "Invalid token", []) :=
  ⟨(c5_hybrid_gate [] [] [sampleSession] sampleJwtEnv 10 "jwt-bearer" none).2.1
      (by decide) ⟨7, 1000⟩ (by decide),
   (c5_hybrid_gate [] [] [sampleSession] sampleJwtEnv 10 "garbage" none).2.2.1
      (by decide) (by decide)⟩

/-- C3: on a matched record the status is checked before expiry — a
non-active match fails with the inactive error naming the stored status and
writes nothing; an active match past its expiry is written to expired (only
the status field) and fails with the expired error; re-validating the same
secret afterwards matches the now-expired record and fails with the inactive
error for status expired, not the expired error, with no further write. -/
theorem c3_status_before_expiry (store : List TokenRec) (now : Int) (v : String)
    (ps ss : List String) (ip : Option String) (t : TokenRec)
    (hnd : (store.map TokenRec.id).Nodup)
    (hfind : find_by_token_value store v = some t) :
    (t.status ≠ Status.active →
      validate_token_access store now v ps ss ip =
        (⟨false, "Token is " ++ t.status.str, none⟩, store)) ∧
    (t.status = Status.active → is_token_expired now t.expiresAt = true →
      validate_token_access store now v ps ss ip =
        (⟨false, "Token has expired", none⟩, markExpired store t.id) ∧
      validate_token_access (markExpired store t.id) now v ps ss ip =
        (⟨false, "Token is expired", none⟩, markExpired store t.id)) := by
  refine ⟨?_, ?_⟩
  · intro hst
    simp only [validate_token_access, hfind]
    rw [if_pos (by simpa using hst)]
  · intro hst hexp
    have hfind2 := find_value_markExpired store hnd hfind
    constructor
    · simp only [validate_token_access, hfind]
      rw [if_neg (by simp [hst]), if_pos hexp]
    · simp only [validate_token_access, hfind2]
      rw [if_pos (show ((expireOnlyF t).status != Status.active) = true from rfl)]
      rfl

theorem c3_status_before_expiry_witness :
    validate_token_access sampleStore 600 "secretA" [] [] none =
      (⟨false, "Token has expired", none⟩, markExpired sampleStore 10) ∧
    validate_token_access (markExpired sampleStore 10) 600 "secretA" [] [] none =
      (⟨false, "Token is expired", none⟩, markExpired sampleStore 10) :=
  (c3_status_before_expiry sampleStore 600 "secretA" [] [] none tokActive
    (by decide) (by decide)).2 (by decide) (by decide)

/-- C4 counterexample: a fully successful validation with no client IP
increments the usage counter and stamps lastUsed, but leaves lastUsedIp at
its previous value (here still 9.9.9.9) — so it is not the case that all
three usage fields are updated whenever validation fully succeeds. -/
theorem c4_counterexample :
    (validate_token_access [tokActive] 100 "secretA" [] [] none).1.ok = true ∧
    tokActive.lastUsedIp = some "9.9.9.9" ∧
    (validate_token_access [tokActive] 100 "secretA" [] [] none).2 =
      [{ tokActive with apiCalls := 5, lastUsed := some 100, updatedAt := 100 }] := by
  refine ⟨by decide, by decide, by decide⟩

/-- C4 (amended): on any failed validation (authentication or authorization)
the usage fields of every record are unchanged; on a fully successful
validation exactly the matched record is updated in one store operation —
apiCalls incremented by exactly 1, lastUsed stamped, and lastUsedIp set to
the client IP when one was provided (kept unchanged otherwise) — while every
other record keeps its usage fields. -/
theorem c4_usage_frame (store : List TokenRec) (now : Int) (v : String)
    (ps ss : List String) (ip : Option String)
    (hnd : (store.map TokenRec.id).Nodup) :
    ((validate_token_access store now v ps ss ip).1.ok = false →
      (validate_token_access store now v ps ss ip).2.map usageFields =
        store.map usageFields) ∧
    ((validate_token_access store now v ps ss ip).1.ok = true →
      ∃ t, find_by_token_value store v = some t ∧
        (validate_token_access store now v ps ss ip).2 =
          updateById store t.id (incrementF now ip) ∧
        firstById (validate_token_access store now v ps ss ip).2 t.id =
          some { t with apiCalls := t.apiCalls + 1, lastUsed := some now, updatedAt := now,
                        lastUsedIp := if truthyStr ip then ip else t.lastUsedIp } ∧
        (∀ j, j ≠ t.id →
          firstById (validate_token_access store now v ps ss ip).2 j = firstById store j)) := by
  rcases validate_store_spec store now v ps ss ip with
    ⟨hf, hres⟩ | ⟨t, hf, ⟨hok, hst⟩ | ⟨hact, hexp, hres⟩ | ⟨hact, hexp, hres⟩⟩
  · constructor
    · intro _
      rw [hres]
    · intro hok
      rw [hres] at hok
      exact absurd hok (by simp)
  · constructor
    · intro _
      rw [hst]
    · intro hok2
      exact absurd (hok.symm.trans hok2) (by simp)
  · constructor
    · intro _
      rw [hres]
      exact updateById_map_eq usageFields (fun r => rfl)
    · intro hok
      rw [hres] at hok
      exact absurd hok (by simp)
  · constructor
    · intro hok
      rw [hres] at hok
      exact absurd hok (by simp)
    · intro _
      have hmem : t ∈ store := (mem_of_find_value hf).1
      have hfb : firstById store t.id = some t := firstById_of_mem hnd hmem
      refine ⟨t, hf, by rw [hres]; rfl, ?_, ?_⟩
      · rw [hres]
        exact firstById_updateById_self hfb (incrementF now ip) rfl rfl
      · intro j hj
        rw [hres]
        exact firstById_updateById_ne _ (fun r => rfl) hj

theorem c4_usage_frame_witness :
    (validate_token_access sampleStore 100 "secretA" ["key:write"] [] none).1.ok = false ∧
    (validate_token_access sampleStore 100 "secretA" ["key:write"] [] none).2.map usageFields =
      sampleStore.map usageFields :=
  ⟨by decide,
   (c4_usage_frame sampleStore 100 "secretA" ["key:write"] [] none (by decide)).1 (by decide)⟩

/-- C1 counterexample: revoking an expired token changes its status from
expired to revoked — the claim that a record whose status is expired never
has its status changed is false (revoke_api_token refuses only records that
are already revoked, then ApiToken.revoke_token sets revoked
unconditionally). -/
theorem c1_counterexample :
    tokExpired.status = Status.expired ∧
    (revoke_api_token sampleStore 200 1 11).1 = (true, none) ∧
    (revoke_api_token sampleStore 200 1 11).2 =
      [tokActive, { tokExpired with status := Status.revoked, updatedAt := 200 }] := by
  refine ⟨by decide, by decide, by decide⟩

/-- C1 (amended): per operation — validate's lazy check, the owner's token
listing and detail reads, and the expiry sweeper change each record's status
only along active to expired; revoke changes each record's status only to
revoked, from active or from expired (revoking an expired token is the one
transition the original claim excluded); regenerate, permission update and
metadata update leave every record's status unchanged; every operation
preserves record ids.  Hence no record's status ever returns to active and
revoked is terminal. -/
theorem c1_status_machine (store : List TokenRec) (now : Int) (v fresh : String)
    (salt : Nat) (ps ss perms : List String) (scopes : Option (List String))
    (ip : Option String) (user_id token_id : Nat) (u : TokenUpdates)
    (hnd : (store.map TokenRec.id).Nodup) :
    StepEvolves ExpireStep store (validate_token_access store now v ps ss ip).2 ∧
    StepEvolves RevokeStep store (revoke_api_token store now user_id token_id).2 ∧
    ((regenerate_api_token store now salt fresh user_id token_id).2.map TokenRec.status =
        store.map TokenRec.status ∧
     (regenerate_api_token store now salt fresh user_id token_id).2.map TokenRec.id =
        store.map TokenRec.id) ∧
    ((update_token_permissions store now user_id token_id perms scopes).2.map
        TokenRec.status = store.map TokenRec.status ∧
     (update_token_permissions store now user_id token_id perms scopes).2.map
        TokenRec.id = store.map TokenRec.id) ∧
    ((update_token store now user_id token_id u).2.map TokenRec.status =
        store.map TokenRec.status ∧
     (update_token store now user_id token_id u).2.map TokenRec.id =
        store.map TokenRec.id) ∧
    StepEvolves ExpireStep store (get_user_tokens store now user_id).2 ∧
    StepEvolves ExpireStep store (get_token_details store now user_id token_id).2 ∧
    StepEvolves ExpireStep store (cleanup_expired_tokens store now) := by
  refine ⟨?_, ?_, ?_, ?_, ?_, ?_, ?_, ?_⟩
  · rcases validate_store_spec store now v ps ss ip with
      ⟨hf, hres⟩ | ⟨t, hf, ⟨hok, hst⟩ | ⟨hact, hexp, hres⟩ | ⟨hact, hexp, hres⟩⟩
    · rw [hres]
      exact stepEvolves_refl ExpireStep expireStep_refl store
    · rw [hst]
      exact stepEvolves_refl ExpireStep expireStep_refl store
    · rw [hres]
      have hfb : firstById store t.id = some t :=
        firstById_of_mem hnd (mem_of_find_value hf).1
      refine stepEvolves_updateById expireStep_refl (fun r => rfl) hfb ?_
      rw [hact]
      exact Or.inr ⟨rfl, rfl⟩
    · rw [hres]
      have hfb : firstById store t.id = some t :=
        firstById_of_mem hnd (mem_of_find_value hf).1
      exact stepEvolves_updateById expireStep_refl (fun r => rfl) hfb (Or.inl rfl)
  · rcases hf : find_by_user_and_id store user_id token_id with _ | t
    · have hres : (revoke_api_token store now user_id token_id).2 = store := by
        simp only [revoke_api_token, hf]
      rw [hres]
      exact stepEvolves_refl RevokeStep (fun a => Or.inl rfl) store
    · have hpred := List.find?_some hf
      have hti : t.id = token_id := by
        have := (Bool.and_eq_true _ _).mp hpred
        simpa using this.1
      have hfb : firstById store token_id = some t := by
        rw [← hti]
        exact firstById_of_mem hnd (List.mem_of_find?_eq_some hf)
      by_cases hrv : (t.status == Status.revoked) = true
      · have hres : (revoke_api_token store now user_id token_id).2 = store := by
          simp only [revoke_api_token, hf]
          rw [if_pos hrv]
        rw [hres]
        exact stepEvolves_refl RevokeStep (fun a => Or.inl rfl) store
      · have hres : (revoke_api_token store now user_id token_id).2 =
            updateById store token_id
              (fun r => { r with status := Status.revoked, updatedAt := now }) := by
          simp only [revoke_api_token, hf]
          rw [if_neg hrv]
        rw [hres]
        refine stepEvolves_updateById (fun a => Or.inl rfl) (fun r => rfl) hfb ?_
        rcases hts : t.status
        · exact Or.inr ⟨Or.inl rfl, rfl⟩
        · exact Or.inr ⟨Or.inr rfl, rfl⟩
        · rw [hts] at hrv
          simp at hrv
  · rcases hf : find_by_user_and_id store user_id token_id with _ | t
    · have hres : (regenerate_api_token store now salt fresh user_id token_id).2 = store := by
        simp only [regenerate_api_token, hf]
      rw [hres]
      exact ⟨rfl, rfl⟩
    · by_cases hst : (t.status != Status.active) = true
      · have hres : (regenerate_api_token store now salt fresh user_id token_id).2
            = store := by
          simp only [regenerate_api_token, hf]
          rw [if_pos hst]
        rw [hres]
        exact ⟨rfl, rfl⟩
      · have hres : (regenerate_api_token store now salt fresh user_id token_id).2 =
            updateById store token_id (regenF salt fresh now) := by
          simp only [regenerate_api_token, hf]
          rw [if_neg hst]
        rw [hres]
        exact ⟨updateById_map_eq TokenRec.status (fun r => rfl),
               updateById_map_id (fun r => rfl)⟩
  · rcases hf : find_by_user_and_id store user_id token_id with _ | t
    · have hres : (update_token_permissions store now user_id token_id perms scopes).2
          = store := by
        simp only [update_token_permissions, hf]
      rw [hres]
      exact ⟨rfl, rfl⟩
    · by_cases hst : (t.status != Status.active) = true
      · have hres : (update_token_permissions store now user_id token_id perms scopes).2
            = store := by
          simp only [update_token_permissions, hf]
          rw [if_pos hst]
        rw [hres]
        exact ⟨rfl, rfl⟩
      · have hres : (update_token_permissions store now user_id token_id perms scopes).2 =
            updateById store token_id (fun r =>
              { r with permissions := perms, scopes := scopes.getD r.scopes,
                       updatedAt := now }) := by
          simp only [update_token_permissions, hf]
          rw [if_neg hst]
        rw [hres]
        exact ⟨updateById_map_eq TokenRec.status (fun r => rfl),
               updateById_map_id (fun r => rfl)⟩
  · rcases hf : find_by_user_and_id store user_id token_id with _ | t
    · have hres : (update_token store now user_id token_id u).2 = store := by
        simp only [update_token, hf]
      rw [hres]
      exact ⟨rfl, rfl⟩
    · by_cases h1 : (t.status != Status.active) = true
      · have hres : (update_token store now user_id token_id u).2 = store := by
          simp only [update_token, hf]
          rw [if_pos h1]
        rw [hres]
        exact ⟨rfl, rfl⟩
      · by_cases h2 : (match u.expiresAt with
            | some e => decide (e ≤ now)
            | none => false) = true
        · have hres : (update_token store now user_id token_id u).2 = store := by
            simp only [update_token, hf]
            rw [if_neg h1, if_pos h2]
          rw [hres]
          exact ⟨rfl, rfl⟩
        · by_cases h3 : (match u.rateLimit with
              | some v => decide (v < 1) || decide (10000 < v)
              | none => false) = true
          · have hres : (update_token store now user_id token_id u).2 = store := by
              simp only [update_token, hf]
              rw [if_neg h1, if_neg h2, if_pos h3]
            rw [hres]
            exact ⟨rfl, rfl⟩
          · rcases hie : u.ipRestrictions.bind ip_restrictions_error with _ | err
            · have hres : (update_token store now user_id token_id u).2 =
                  updateById store token_id (applyUpdates u now) := by
                simp only [update_token, hf]
                rw [if_neg h1, if_neg h2, if_neg h3, hie]
              rw [hres]
              exact ⟨updateById_map_eq TokenRec.status (fun r => rfl),
                     updateById_map_id (fun r => rfl)⟩
            · have hres : (update_token store now user_id token_id u).2 = store := by
                simp only [update_token, hf]
                rw [if_neg h1, if_neg h2, if_neg h3, hie]
              rw [hres]
              exact ⟨rfl, rfl⟩
  · have hsub : List.Sublist ((find_by_user store user_id).map TokenRec.id)
        (store.map TokenRec.id) :=
      (List.filter_sublist store).map TokenRec.id
    obtain ⟨_, _, _, hevo⟩ := processUserTokens_store now (find_by_user store user_id) store
      hnd (hnd.sublist hsub)
      (fun t ht => firstById_of_mem hnd (List.mem_filter.mp ht).1)
    exact hevo
  · rcases hf : find_by_user_and_id store user_id token_id with _ | t
    · have hres : (get_token_details store now user_id token_id).2 = store := by
        simp only [get_token_details, hf]
      rw [hres]
      exact stepEvolves_refl ExpireStep expireStep_refl store
    · by_cases hc : lazyExpireCond now t = true
      · have hres : (get_token_details store now user_id token_id).2 =
            updateById store t.id (expireUpdF now) := by
          simp only [get_token_details, hf]
          rw [if_pos hc]
        rw [hres]
        have hfb : firstById store t.id = some t :=
          firstById_of_mem hnd (List.mem_of_find?_eq_some hf)
        refine stepEvolves_updateById expireStep_refl (fun r => rfl) hfb ?_
        rw [lazyExpireCond_active hc]
        exact Or.inr ⟨rfl, rfl⟩
      · have hres : (get_token_details store now user_id token_id).2 = store := by
          simp only [get_token_details, hf]
          rw [if_neg hc]
        rw [hres]
        exact stepEvolves_refl ExpireStep expireStep_refl store
  · refine stepEvolves_map ?_
    intro r
    by_cases hc : (r.status == Status.active &&
        (match r.expiresAt with
         | some e => decide (e < now)
         | none => false)) = true
    · rw [if_pos hc]
      refine ⟨rfl, ?_⟩
      have hact : r.status = Status.active := by
        have := (Bool.and_eq_true _ _).mp hc
        simpa using this.1
      rw [hact]
      exact Or.inr ⟨rfl, rfl⟩
    · rw [if_neg hc]
      exact ⟨rfl, Or.inl rfl⟩

theorem c1_status_machine_witness :
    StepEvolves RevokeStep sampleStore (revoke_api_token sampleStore 600 1 11).2 ∧
    (regenerate_api_token sampleStore 600 7 "f" 1 10).2.map TokenRec.status =
      sampleStore.map TokenRec.status ∧
    StepEvolves ExpireStep sampleStore (cleanup_expired_tokens sampleStore 600) :=
  ⟨(c1_status_machine sampleStore 600 "v" "f" 7 [] [] [] none none 1 11
      { name := none, description := none, expiresAt := none, rateLimit := none,
        ipRestrictions := none } (by decide)).2.1,
   (c1_status_machine sampleStore 600 "v" "f" 7 [] [] [] none none 1 10
      { name := none, description := none, expiresAt := none, rateLimit := none,
        ipRestrictions := none } (by decide)).2.2.1.1,
   (c1_status_machine sampleStore 600 "v" "f" 7 [] [] [] none none 1 11
      { name := none, description := none, expiresAt := none, rateLimit := none,
        ipRestrictions := none } (by decide)).2.2.2.2.2.2.2⟩

/-- C9: rateLimit never influences validation: for stores that agree on
everything except the rateLimit fields of their records, validate yields the
same accept/reject flag and the same message, principal contexts equal up to
the echoed rateLimit field, and stores that still agree on everything except
rateLimit. -/
theorem c9_rate_limit_noninterference (s1 s2 : List TokenRec) (now : Int) (v : String)
    (ps ss : List String) (ip : Option String)
    (h : List.Forall₂ SameButRate s1 s2) :
    (validate_token_access s1 now v ps ss ip).1.ok =
      (validate_token_access s2 now v ps ss ip).1.ok ∧
    (validate_token_access s1 now v ps ss ip).1.message =
      (validate_token_access s2 now v ps ss ip).1.message ∧
    (validate_token_access s1 now v ps ss ip).1.info.map scrubInfo =
      (validate_token_access s2 now v ps ss ip).1.info.map scrubInfo ∧
    List.Forall₂ SameButRate (validate_token_access s1 now v ps ss ip).2
      (validate_token_access s2 now v ps ss ip).2 := by
  rcases @find_value_rel v s1 s2 h with ⟨h1, h2⟩ | ⟨t, u, h1, h2, htu⟩
  · have e1 : validate_token_access s1 now v ps ss ip =
        (⟨false, "Invalid token", none⟩, s1) := by
      simp [validate_token_access, h1]
    have e2 : validate_token_access s2 now v ps ss ip =
        (⟨false, "Invalid token", none⟩, s2) := by
      simp [validate_token_access, h2]
    rw [e1, e2]
    exact ⟨rfl, rfl, rfl, h⟩
  · have hstat := htu.status_eq
    have hexp := htu.expiresAt_eq
    have hipr := htu.ipRestrictions_eq
    have hperm := htu.permissions_eq
    have hscope := htu.scopes_eq
    have hid := htu.id_eq
    by_cases hst : (t.status != Status.active) = true
    · have e1 : validate_token_access s1 now v ps ss ip =
          (⟨false, "Token is " ++ t.status.str, none⟩, s1) := by
        simp only [validate_token_access, h1]
        rw [if_pos hst]
      have e2 : validate_token_access s2 now v ps ss ip =
          (⟨false, "Token is " ++ u.status.str, none⟩, s2) := by
        simp only [validate_token_access, h2]
        rw [if_pos (by rw [← hstat]; exact hst)]
      rw [e1, e2, hstat]
      exact ⟨rfl, rfl, rfl, h⟩
    · by_cases hxp : is_token_expired now t.expiresAt = true
      · have e1 : validate_token_access s1 now v ps ss ip =
            (⟨false, "Token has expired", none⟩, markExpired s1 t.id) := by
          simp only [validate_token_access, h1]
          rw [if_neg hst, if_pos hxp]
        have e2 : validate_token_access s2 now v ps ss ip =
            (⟨false, "Token has expired", none⟩, markExpired s2 u.id) := by
          simp only [validate_token_access, h2]
          rw [if_neg (by rw [← hstat]; exact hst), if_pos (by rw [← hexp]; exact hxp)]
        rw [e1, e2]
        refine ⟨rfl, rfl, rfl, ?_⟩
        rw [markExpired, markExpired, ← hid]
        exact sameButRate_updateById h t.id _ (fun a b hab => hab.expireOnlyF)
      · by_cases hreq : (!t.ipRestrictions.isEmpty && !truthyStr ip) = true
        · have e1 : validate_token_access s1 now v ps ss ip =
              (⟨false, "IP address required for this token", none⟩, s1) := by
            simp only [validate_token_access, h1]
            rw [if_neg hst, if_neg hxp, if_pos hreq]
          have e2 : validate_token_access s2 now v ps ss ip =
              (⟨false, "IP address required for this token", none⟩, s2) := by
            simp only [validate_token_access, h2]
            rw [if_neg (by rw [← hstat]; exact hst), if_neg (by rw [← hexp]; exact hxp),
              if_pos (by rw [← hipr]; exact hreq)]
          rw [e1, e2]
          exact ⟨rfl, rfl, rfl, h⟩
        · by_cases hipc : (!t.ipRestrictions.isEmpty &&
              !check_ip_restriction ip t.ipRestrictions) = true
          · have e1 : validate_token_access s1 now v ps ss ip =
                (⟨false, "IP address " ++ ip.getD "" ++ " not allowed for this token", none⟩,
                  s1) := by
              simp only [validate_token_access, h1]
              rw [if_neg hst, if_neg hxp, if_neg hreq, if_pos hipc]
            have e2 : validate_token_access s2 now v ps ss ip =
                (⟨false, "IP address " ++ ip.getD "" ++ " not allowed for this token", none⟩,
                  s2) := by
              simp only [validate_token_access, h2]
              rw [if_neg (by rw [← hstat]; exact hst), if_neg (by rw [← hexp]; exact hxp),
                if_neg (by rw [← hipr]; exact hreq), if_pos (by rw [← hipr]; exact hipc)]
            rw [e1, e2]
            exact ⟨rfl, rfl, rfl, h⟩
          · rcases hp : firstMissing ps t.permissions with _ | p
            · rcases hs : firstMissing ss t.scopes with _ | sc
              · have e1 : validate_token_access s1 now v ps ss ip =
                    (⟨true, "Access granted", some t.toInfo⟩,
                      increment_api_calls s1 now t.id ip) := by
                  simp only [validate_token_access, h1]
                  rw [if_neg hst, if_neg hxp, if_neg hreq, if_neg hipc, hp, hs]
                have e2 : validate_token_access s2 now v ps ss ip =
                    (⟨true, "Access granted", some u.toInfo⟩,
                      increment_api_calls s2 now u.id ip) := by
                  simp only [validate_token_access, h2]
                  rw [if_neg (by rw [← hstat]; exact hst), if_neg (by rw [← hexp]; exact hxp),
                    if_neg (by rw [← hipr]; exact hreq), if_neg (by rw [← hipr]; exact hipc),
                    (by rw [← hperm]; exact hp :
                      firstMissing ps u.permissions = none),
                    (by rw [← hscope]; exact hs :
                      firstMissing ss u.scopes = none)]
                rw [e1, e2]
                refine ⟨rfl, rfl, ?_, ?_⟩
                · simpa using htu.scrubInfo_eq
                · rw [increment_api_calls, increment_api_calls, ← hid]
                  exact sameButRate_updateById h t.id _ (fun a b hab => hab.incrementF)
              · have e1 : validate_token_access s1 now v ps ss ip =
                    (⟨false, "Insufficient scopes: " ++ sc, none⟩, s1) := by
                  simp only [validate_token_access, h1]
                  rw [if_neg hst, if_neg hxp, if_neg hreq, if_neg hipc, hp, hs]
                have e2 : validate_token_access s2 now v ps ss ip =
                    (⟨false, "Insufficient scopes: " ++ sc, none⟩, s2) := by
                  simp only [validate_token_access, h2]
                  rw [if_neg (by rw [← hstat]; exact hst), if_neg (by rw [← hexp]; exact hxp),
                    if_neg (by rw [← hipr]; exact hreq), if_neg (by rw [← hipr]; exact hipc),
                    (by rw [← hperm]; exact hp :
                      firstMissing ps u.permissions = none),
                    (by rw [← hscope]; exact hs :
                      firstMissing ss u.scopes = some sc)]
                rw [e1, e2]
                exact ⟨rfl, rfl, rfl, h⟩
            · have e1 : validate_token_access s1 now v ps ss ip =
                  (⟨false, "Insufficient permissions: " ++ p, none⟩, s1) := by
                simp only [validate_token_access, h1]
                rw [if_neg hst, if_neg hxp, if_neg hreq, if_neg hipc, hp]
              have e2 : validate_token_access s2 now v ps ss ip =
                  (⟨false, "Insufficient permissions: " ++ p, none⟩, s2) := by
                simp only [validate_token_access, h2]
                rw [if_neg (by rw [← hstat]; exact hst), if_neg (by rw [← hexp]; exact hxp),
                  if_neg (by rw [← hipr]; exact hreq), if_neg (by rw [← hipr]; exact hipc),
                  (by rw [← hperm]; exact hp :
                    firstMissing ps u.permissions = some p)]
              rw [e1, e2]
              exact ⟨rfl, rfl, rfl, h⟩

theorem c9_rate_limit_noninterference_witness :
    (validate_token_access [tokActive] 100 "secretA" [] [] none).1.ok =
      (validate_token_access [{ tokActive with rateLimit := 1 }] 100 "secretA" [] [] none).1.ok ∧
    (validate_token_access [tokActive] 100 "secretA" [] [] none).1.message =
      (validate_token_access [{ tokActive with rateLimit := 1 }] 100 "secretA"
        [] [] none).1.message :=
  ⟨(c9_rate_limit_noninterference [tokActive] [{ tokActive with rateLimit := 1 }]
      100 "secretA" [] [] none
      (List.Forall₂.cons (by decide) List.Forall₂.nil)).1,
   (c9_rate_limit_noninterference [tokActive] [{ tokActive with rateLimit := 1 }]
      100 "secretA" [] [] none
      (List.Forall₂.cons (by decide) List.Forall₂.nil)).2.1⟩

/-- C10: the owner's listing and the single-token read are not side-effect
free — every active record past its expiry that they touch is written to
status expired (with updatedAt stamped) in the store, and no returned entry
is simultaneously reported active and past its expiry. -/
theorem c10_lazy_expire_reads (store : List TokenRec) (now : Int) (u_id token_id : Nat)
    (hnd : (store.map TokenRec.id).Nodup) :
    (∀ w ∈ (get_user_tokens store now u_id).1,
      ¬(w.status = Status.active ∧ is_token_expired now w.expiresAt = true)) ∧
    (∀ r ∈ store, r.userId = u_id → lazyExpireCond now r = true →
      firstById (get_user_tokens store now u_id).2 r.id = some (expireUpdF now r)) ∧
    (∀ w, (get_token_details store now u_id token_id).1 = some w →
      ¬(w.status = Status.active ∧ is_token_expired now w.expiresAt = true)) ∧
    (∀ t, find_by_user_and_id store u_id token_id = some t →
      lazyExpireCond now t = true →
      firstById (get_token_details store now u_id token_id).2 t.id =
        some (expireUpdF now t)) := by
  have hsub : List.Sublist ((find_by_user store u_id).map TokenRec.id)
      (store.map TokenRec.id) :=
    (List.filter_sublist store).map TokenRec.id
  have hts : ((find_by_user store u_id).map TokenRec.id).Nodup := hnd.sublist hsub
  have hmem : ∀ t ∈ find_by_user store u_id, firstById store t.id = some t :=
    fun t ht => firstById_of_mem hnd (List.mem_filter.mp ht).1
  obtain ⟨hmap, hself, hother, _⟩ :=
    processUserTokens_store now (find_by_user store u_id) store hnd hts hmem
  refine ⟨?_, ?_, ?_, ?_⟩
  · exact processUserTokens_views now (find_by_user store u_id) store
  · intro r hr huser hcond
    have hact : r.status = Status.active := lazyExpireCond_active hcond
    have hin : r ∈ find_by_user store u_id := by
      refine List.mem_filter.mpr ⟨hr, ?_⟩
      rw [hact, huser]
      simp
    have := hself r hin
    rw [if_pos hcond] at this
    exact this
  · intro w hw
    rcases hf : find_by_user_and_id store u_id token_id with _ | t
    · simp only [get_token_details, hf] at hw
      simp at hw
    · by_cases hc : lazyExpireCond now t = true
      · have : (get_token_details store now u_id token_id).1 =
            some (t.toView Status.expired) := by
          simp only [get_token_details, hf]
          rw [if_pos hc]
        rw [this] at hw
        obtain rfl : t.toView Status.expired = w := by simpa using hw
        rintro ⟨hs, _⟩
        exact Status.noConfusion (hs : Status.expired = Status.active)
      · have : (get_token_details store now u_id token_id).1 =
            some (t.toView t.status) := by
          simp only [get_token_details, hf]
          rw [if_neg hc]
        rw [this] at hw
        obtain rfl : t.toView t.status = w := by simpa using hw
        rintro ⟨hs, he⟩
        apply hc
        have hs' : t.status = Status.active := hs
        have he' : is_token_expired now t.expiresAt = true := he
        have hsome : t.expiresAt.isSome = true := by
          rcases hx : t.expiresAt with _ | e
          · rw [hx] at he'
            simp [is_token_expired] at he'
          · simp
        simp [lazyExpireCond, hs', he', hsome]
  · intro t hf hc
    have hres : (get_token_details store now u_id token_id).2 =
        updateById store t.id (expireUpdF now) := by
      simp only [get_token_details, hf]
      rw [if_pos hc]
    rw [hres]
    have hfb : firstById store t.id = some t :=
      firstById_of_mem hnd (List.mem_of_find?_eq_some hf)
    exact firstById_updateById_self hfb (expireUpdF now) rfl rfl

theorem c10_lazy_expire_reads_witness :
    firstById (get_user_tokens sampleStore 600 1).2 tokActive.id =
      some (expireUpdF 600 tokActive) ∧
    (∀ w ∈ (get_user_tokens sampleStore 600 1).1,
      ¬(w.status = Status.active ∧ is_token_expired 600 w.expiresAt = true)) :=
  ⟨(c10_lazy_expire_reads sampleStore 600 1 11 (by decide)).2.1 tokActive
      (by decide) (by decide) (by decide),
   (c10_lazy_expire_reads sampleStore 600 1 11 (by decide)).1⟩

end KeyOrbit
